/-
Verification of the Multi-Provider LLM Invocation Layer of MCP-Universe.

Shallow embedding of the retry/backoff loops, the fallback chain, the
message/tool translation functions, and the JSON round trip used by the
provider adapters in src/mcpuniverse/llm/{gemini,claude_gateway,
vllm_gptoss,litellm}.py.

Conventions:
- A provider call attempt is abstracted as an oracle `call : Nat -> Except e a`
  giving the outcome of the n-th attempt (the network is the only
  nondeterminism; everything around it is deterministic and is embedded
  directly from the source).
- Python floats in the retry arithmetic are embedded as rationals; the
  values involved (10.0, 2.0, powers of two) are exact in both.
- `time.sleep(d)` is recorded in a trace of delays instead of sleeping.
-/
import Mathlib

set_option maxRecDepth 4096

/-! ## Retry/Backoff engine

Each of `GeminiModel._generate`, `ClaudeGatewayModel._generate`,
`VLLMLocalModel._generate` and the per-model loop of
`LiteLLMModel._generate` runs the same `for attempt in range(max_retries+1)`
loop: an attempt that succeeds returns, a failing attempt is classified by
an adapter-specific rule; a retryable failure with budget left sleeps
`base_delay * 2 ** attempt` and continues, anything else returns `None`.
-/

/-- Observable trace of one candidate's retry loop: the returned value
(`none` is Python `None`), the number of attempts actually made, and the
backoff delays slept, in order. -/
structure Trace (α : Type) (ε : Type) where
  result : Option α
  numAttempts : Nat
  delays : List ℚ
deriving Repr, DecidableEq

/-- The retry loop shared by the adapters' `_generate` methods, starting at
attempt index `n` with `fuel = max_retries - n` retries left.  Embeds:
`for attempt in range(max_retries+1): try ... except e: if fatal or last:
return None else: time.sleep(base_delay * 2**attempt)`. -/
def retryRun (call : Nat → Except ε α) (retryable : ε → Bool) (baseDelay : ℚ) :
    Nat → Nat → Trace α ε
  | n, fuel =>
    match call n with
    | .ok a => ⟨some a, 1, []⟩
    | .error e =>
      match fuel with
      | 0 => ⟨none, 1, []⟩
      | fuel' + 1 =>
        if retryable e then
          let rest := retryRun call retryable baseDelay (n + 1) fuel'
          ⟨rest.result, rest.numAttempts + 1, baseDelay * 2 ^ n :: rest.delays⟩
        else ⟨none, 1, []⟩

/-- Optional per-invocation keyword arguments read by every `_generate`
(`kwargs.get("max_retries", ...)`, `kwargs.get("base_delay", ...)`). -/
structure GenKwargs where
  max_retries : Option Nat
  base_delay : Option ℚ
deriving Repr, DecidableEq

/-! ### Adapter-specific error classification -/

/-- Python `needle` being a prefix of `hay` (character lists). -/
def startsWithList : List Char → List Char → Bool
  | [], _ => true
  | _ :: _, [] => false
  | c :: cs, d :: ds => (c = d) && startsWithList cs ds

/-- Python's `needle in hay` on strings, as character lists. -/
def infixOfList (needle : List Char) : List Char → Bool
  | [] => startsWithList needle []
  | d :: tl => startsWithList needle (d :: tl) || infixOfList needle tl

/-- The keyword list of `GeminiModel._generate`'s retryable-error check. -/
def geminiRetryKeywords : List String :=
  ["rate limit", "quota", "timeout", "connection", "network",
   "service unavailable", "internal error", "429", "500", "502", "503", "504"]

/-- ASCII `str.lower()`, character by character. -/
def pyLowerChar (c : Char) : Char :=
  if 65 ≤ c.toNat ∧ c.toNat ≤ 90 then Char.ofNat (c.toNat + 32) else c

/-- `GeminiModel._generate`: `is_retryable = any(keyword in str(e).lower()
for keyword in [...])`. -/
def geminiIsRetryable (e : String) : Bool :=
  geminiRetryKeywords.any (fun k => infixOfList k.toList (e.toList.map pyLowerChar))

/-- Exceptions reaching the handlers of `ClaudeGatewayModel._generate`.
`timeout`, `httpError` (any HTTP status, raised by `raise_for_status`) and
`connectionError`/`requestException` are the `requests.exceptions` family;
`otherError` is any other exception. -/
inductive ClaudeError where
  | timeout
  | httpError (status : Nat)
  | connectionError
  | requestException
  | otherError (msg : String)
deriving Repr, DecidableEq

/-- `ClaudeGatewayModel._generate` retries on
`(requests.exceptions.RequestException, Timeout, HTTPError)` — any HTTP
status included — and returns `None` at once on every other exception. -/
def claudeIsRetryable : ClaudeError → Bool
  | .otherError _ => false
  | _ => true

/-- Exceptions reaching the handlers of `VLLMLocalModel._generate`.  The
call itself is made with `requests`, whose exceptions are **not** in the
retryable tuple `(RateLimitError, APIError, APITimeoutError)` of the
`openai` package. -/
inductive VllmError where
  | rateLimitError
  | apiError
  | apiTimeoutError
  | requestsError (msg : String)
  | otherError (msg : String)
deriving Repr, DecidableEq

/-- `VLLMLocalModel._generate` retries only on the `openai` client errors
`(RateLimitError, APIError, APITimeoutError)`; every other exception —
including the `requests` network-layer failures its own transport raises —
hits `except Exception` and returns `None` immediately. -/
def vllmIsRetryable : VllmError → Bool
  | .rateLimitError => true
  | .apiError => true
  | .apiTimeoutError => true
  | _ => false

/-! ### Adapter entry points (retry part) -/

/-- `GeminiModel._generate`: `max_retries = kwargs.get("max_retries", 0)`,
`base_delay = kwargs.get("base_delay", 10.0)`. -/
def geminiGenerate (call : Nat → Except String α) (kw : GenKwargs) :
    Trace α String :=
  retryRun call geminiIsRetryable (kw.base_delay.getD 10) 0 (kw.max_retries.getD 0)

/-- `ClaudeGatewayModel._generate`: same `kwargs` defaults `0` / `10.0`. -/
def claudeGenerate (call : Nat → Except ClaudeError α) (kw : GenKwargs) :
    Trace α ClaudeError :=
  retryRun call claudeIsRetryable (kw.base_delay.getD 10) 0 (kw.max_retries.getD 0)

/-- `VLLMLocalModel._generate`: same `kwargs` defaults `0` / `10.0`. -/
def vllmGenerate (call : Nat → Except VllmError α) (kw : GenKwargs) :
    Trace α VllmError :=
  retryRun call vllmIsRetryable (kw.base_delay.getD 10) 0 (kw.max_retries.getD 0)

/-! ### LiteLLM fallback chain

`LiteLLMModel._try_model` wraps the provider call in
`try: ... except Exception: return None, 0.0`, so by the time the retry
loop of `_generate` sees an outcome every failure has been collapsed to
`None`: there is no fatal class, every failure is retried. -/

/-- The catch-all of `LiteLLMModel._try_model`: any raised error becomes
`None`. -/
def toExceptCall (tryModel : Nat → Option α) : Nat → Except Unit α :=
  fun n =>
    match tryModel n with
    | some a => .ok a
    | none => .error ()

/-- Part of `LiteLLMConfig` relevant to the fallback chain. -/
structure LiteLLMConfig where
  model_name : String
  fallback_models : List String
deriving Repr, DecidableEq

/-- Trace of `LiteLLMModel._generate`: the returned value, the models
actually tried (in order, with the number of attempts each received), and
all backoff delays slept. -/
structure LiteTrace (α : Type) where
  result : Option α
  modelAttempts : List (String × Nat)
  delays : List ℚ
deriving Repr, DecidableEq

/-- The `for model_name in models_to_try` loop of `LiteLLMModel._generate`:
each model runs the full retry loop; the first non-`None` result is
returned immediately, otherwise the next model is tried; after the last
model the function returns `None`. -/
def litellmChainRun (tryModel : String → Nat → Option α) (maxRetries : Nat)
    (baseDelay : ℚ) : List String → LiteTrace α
  | [] => ⟨none, [], []⟩
  | m :: ms =>
    let t := retryRun (toExceptCall (tryModel m)) (fun _ => true) baseDelay 0 maxRetries
    match t.result with
    | some a => ⟨some a, [(m, t.numAttempts)], t.delays⟩
    | none =>
      let rest := litellmChainRun tryModel maxRetries baseDelay ms
      ⟨rest.result, (m, t.numAttempts) :: rest.modelAttempts, t.delays ++ rest.delays⟩

/-- `LiteLLMModel._generate`: `max_retries = kwargs.pop("max_retries", 3)`,
`base_delay = kwargs.pop("base_delay", 2.0)`,
`models_to_try = [self.config.model_name] + self.config.fallback_models`. -/
def litellmGenerate (tryModel : String → Nat → Option α) (kw : GenKwargs)
    (cfg : LiteLLMConfig) : LiteTrace α :=
  litellmChainRun tryModel (kw.max_retries.getD 3) (kw.base_delay.getD 2)
    (cfg.model_name :: cfg.fallback_models)

/-- The chain as seen above `_try_model`'s catch-all: the raw provider call
may fail with an exception `e` (a string rendering of the error), which
`_try_model` swallows into `None` before the retry loop ever sees it. -/
def litellmGenerateRaw (raw : String → Nat → Except String α) (maxRetries : Nat)
    (baseDelay : ℚ) (models : List String) : LiteTrace α :=
  litellmChainRun (fun m n => (raw m n).toOption) maxRetries baseDelay models

/-! ### General lemmas about the retry loop -/

theorem retryRun_ok (call : Nat → Except ε α) (retryable : ε → Bool)
    (d : ℚ) (n fuel : Nat) (a : α) (h : call n = .ok a) :
    retryRun call retryable d n fuel = ⟨some a, 1, []⟩ := by
  unfold retryRun
  rw [h]

theorem retryRun_fatal (call : Nat → Except ε α) (retryable : ε → Bool)
    (d : ℚ) (n fuel : Nat) (e : ε) (h : call n = .error e)
    (hf : retryable e = false) :
    retryRun call retryable d n fuel = ⟨none, 1, []⟩ := by
  unfold retryRun
  rw [h]
  cases fuel with
  | zero => rfl
  | succ fuel' => simp [hf]

theorem retryRun_step (call : Nat → Except ε α) (retryable : ε → Bool)
    (d : ℚ) (n fuel : Nat) (e : ε) (h : call n = .error e)
    (hr : retryable e = true) :
    retryRun call retryable d n (fuel + 1) =
      ⟨(retryRun call retryable d (n + 1) fuel).result,
       (retryRun call retryable d (n + 1) fuel).numAttempts + 1,
       d * 2 ^ n :: (retryRun call retryable d (n + 1) fuel).delays⟩ := by
  conv_lhs => unfold retryRun
  rw [h]
  simp [hr]

/-- A candidate that always fails retryably gets exactly `fuel + 1`
attempts, returns `None`, and sleeps the full exponential schedule. -/
theorem retryRun_allFail (call : Nat → Except ε α) (retryable : ε → Bool)
    (d : ℚ) (h : ∀ k, ∃ e, call k = .error e ∧ retryable e = true) :
    ∀ fuel n, retryRun call retryable d n fuel =
      ⟨none, fuel + 1, (List.range fuel).map (fun k => d * 2 ^ (n + k))⟩ := by
  intro fuel
  induction fuel with
  | zero =>
    intro n
    obtain ⟨e, he, _⟩ := h n
    unfold retryRun
    rw [he]
    rfl
  | succ fuel' ih =>
    intro n
    obtain ⟨e, he, hr⟩ := h n
    rw [retryRun_step call retryable d n fuel' e he hr, ih (n + 1)]
    refine congrArg (Trace.mk none (fuel' + 1 + 1)) ?_
    rw [List.range_succ_eq_map]
    simp only [List.map_cons, List.map_map]
    refine congrArg₂ List.cons (by ring) ?_
    refine List.map_congr_left ?_
    intro k _
    simp only [Function.comp_apply]
    have : n + 1 + k = n + k.succ := by omega
    rw [this]

/-- An always-failing candidate (retryably or not) returns `None`. -/
theorem retryRun_allError_result (call : Nat → Except ε α) (retryable : ε → Bool)
    (d : ℚ) (h : ∀ k, ∃ e, call k = .error e) :
    ∀ fuel n, (retryRun call retryable d n fuel).result = none := by
  intro fuel
  induction fuel with
  | zero =>
    intro n
    obtain ⟨e, he⟩ := h n
    unfold retryRun
    rw [he]
  | succ fuel' ih =>
    intro n
    obtain ⟨e, he⟩ := h n
    unfold retryRun
    rw [he]
    by_cases hr : retryable e
    · simp [hr, ih (n + 1)]
    · simp [hr]

/-- When every attempt of every model fails, the chain walks all models in
order, giving each `maxRetries + 1` attempts and the full backoff
schedule. -/
theorem litellmChainRun_allNone (tryModel : String → Nat → Option α)
    (R : Nat) (d : ℚ) (h : ∀ m n, tryModel m n = none) :
    ∀ models, litellmChainRun tryModel R d models =
      ⟨none, models.map (fun m => (m, R + 1)),
       (models.map (fun _ => (List.range R).map (fun k => d * 2 ^ k))).flatten⟩ := by
  intro models
  induction models with
  | nil => rfl
  | cons m ms ih =>
    have hcall : ∀ k, ∃ e, toExceptCall (tryModel m) k = .error e ∧
        (fun (_ : Unit) => true) e = true := by
      intro k
      exact ⟨(), by simp [toExceptCall, h m k], rfl⟩
    unfold litellmChainRun
    rw [retryRun_allFail (toExceptCall (tryModel m)) (fun _ => true) d hcall R 0]
    simp only [ih]
    refine congrArg₂ (LiteTrace.mk none) rfl ?_
    simp only [List.map_cons, List.flatten_cons]
    refine congrArg₂ List.append ?_ rfl
    refine List.map_congr_left ?_
    intro k _
    simp

/-- When the first model's retry loop succeeds, the chain returns that
result at once: the trace records no model beyond the first. -/
theorem litellmChainRun_headSuccess (tryModel : String → Nat → Option α)
    (R : Nat) (d : ℚ) (m : String) (ms : List String) (a : α)
    (h : (retryRun (toExceptCall (tryModel m)) (fun _ => true) d 0 R).result = some a) :
    litellmChainRun tryModel R d (m :: ms) =
      ⟨some a,
       [(m, (retryRun (toExceptCall (tryModel m)) (fun _ => true) d 0 R).numAttempts)],
       (retryRun (toExceptCall (tryModel m)) (fun _ => true) d 0 R).delays⟩ := by
  rcases hEq : retryRun (toExceptCall (tryModel m)) (fun _ => true) d 0 R with ⟨r, na, ds⟩
  rw [hEq] at h
  simp only at h
  subst h
  unfold litellmChainRun
  rw [hEq]

/-- When the first model's retry loop fails, the chain records it and
advances to the rest of the list. -/
theorem litellmChainRun_headFail (tryModel : String → Nat → Option α)
    (R : Nat) (d : ℚ) (m : String) (ms : List String)
    (h : (retryRun (toExceptCall (tryModel m)) (fun _ => true) d 0 R).result = none) :
    litellmChainRun tryModel R d (m :: ms) =
      ⟨(litellmChainRun tryModel R d ms).result,
       (m, (retryRun (toExceptCall (tryModel m)) (fun _ => true) d 0 R).numAttempts) ::
         (litellmChainRun tryModel R d ms).modelAttempts,
       (retryRun (toExceptCall (tryModel m)) (fun _ => true) d 0 R).delays ++
         (litellmChainRun tryModel R d ms).delays⟩ := by
  rcases hEq : retryRun (toExceptCall (tryModel m)) (fun _ => true) d 0 R with ⟨r, na, ds⟩
  rw [hEq] at h
  simp only at h
  subst h
  conv_lhs => unfold litellmChainRun
  rw [hEq]

/-- The models the chain touches are always an initial segment of the
configured list. -/
theorem litellmChainRun_models_initial (tryModel : String → Nat → Option α)
    (R : Nat) (d : ℚ) :
    ∀ models, ∃ t,
      ((litellmChainRun tryModel R d models).modelAttempts.map Prod.fst) ++ t = models := by
  intro models
  induction models with
  | nil => exact ⟨[], rfl⟩
  | cons m ms ih =>
    by_cases h : (retryRun (toExceptCall (tryModel m)) (fun _ => true) d 0 R).result = none
    · obtain ⟨t, ht⟩ := ih
      rw [litellmChainRun_headFail tryModel R d m ms h]
      exact ⟨t, by simp [ht]⟩
    · obtain ⟨a, ha⟩ := Option.ne_none_iff_exists'.mp h
      rw [litellmChainRun_headSuccess tryModel R d m ms a ha]
      exact ⟨ms, rfl⟩

/-- Every retry loop makes at least one attempt. -/
theorem retryRun_numAttempts_pos (call : Nat → Except ε α) (retryable : ε → Bool)
    (d : ℚ) (n fuel : Nat) : 1 ≤ (retryRun call retryable d n fuel).numAttempts := by
  unfold retryRun
  cases h : call n with
  | ok a => simp
  | error e =>
    cases fuel with
    | zero => simp
    | succ fuel' =>
      by_cases hr : retryable e <;> simp [hr]

/-- With no retry budget left, a failing attempt ends the loop at once. -/
theorem retryRun_fuelZero_error (call : Nat → Except ε α) (retryable : ε → Bool)
    (d : ℚ) (n : Nat) (e : ε) (h : call n = .error e) :
    retryRun call retryable d n 0 = ⟨none, 1, []⟩ := by
  unfold retryRun
  rw [h]

/-! ## Claims C1-C5, C9: retry, fallback, defaults, backoff -/

/-- C1 (amended): in every adapter's retry loop, an attempt failing with an
error the adapter classifies as retryable is followed by a further attempt
whenever retries remain, and an error classified as fatal ends the
candidate after exactly that one attempt.  The classification, however, is
adapter-specific and does not follow the spec's taxonomy: ClaudeGateway
retries every `requests` exception — Unauthorized HTTP 401 included — and
treats every other exception as fatal; Gemini classifies by substring
keywords of the error message (an unauthorized error is fatal there, a
rate-limit message retryable); vLLM retries only the `openai` client
errors, so a generic network-layer failure is fatal; LiteLLM swallows every
exception into `None` and therefore retries every failure. -/
theorem c1_error_classification :
    (∀ (α ε : Type) (call : Nat → Except ε α) (retryable : ε → Bool)
        (d : ℚ) (R : Nat) (e : ε), call 0 = Except.error e →
        (retryable e = false → retryRun call retryable d 0 R = ⟨none, 1, []⟩) ∧
        (retryable e = true → 0 < R →
          2 ≤ (retryRun call retryable d 0 R).numAttempts)) ∧
    claudeIsRetryable (ClaudeError.httpError 401) = true ∧
    claudeIsRetryable ClaudeError.timeout = true ∧
    claudeIsRetryable (ClaudeError.otherError "KeyError") = false ∧
    geminiIsRetryable "401 client error: unauthorized" = false ∧
    geminiIsRetryable "429 resource exhausted: rate limit" = true ∧
    vllmIsRetryable (VllmError.requestsError "connection refused") = false ∧
    vllmIsRetryable VllmError.rateLimitError = true ∧
    (∀ (α : Type) (tryModel : Nat → Option α) (d : ℚ) (R : Nat),
        tryModel 0 = none → 0 < R →
        2 ≤ (retryRun (toExceptCall tryModel) (fun _ => true) d 0 R).numAttempts) := by
  refine ⟨?_, by decide, by decide, by decide, by decide, by decide, by decide,
    by decide, ?_⟩
  · intro α ε call retryable d R e h
    constructor
    · intro hf
      exact retryRun_fatal call retryable d 0 R e h hf
    · intro hr hR
      obtain ⟨R', rfl⟩ := Nat.exists_eq_succ_of_ne_zero (Nat.pos_iff_ne_zero.mp hR)
      rw [retryRun_step call retryable d 0 R' e h hr]
      show 2 ≤ (retryRun call retryable d (0 + 1) R').numAttempts + 1
      have := retryRun_numAttempts_pos call retryable d (0 + 1) R'
      omega
  · intro α tryModel d R h hR
    obtain ⟨R', rfl⟩ := Nat.exists_eq_succ_of_ne_zero (Nat.pos_iff_ne_zero.mp hR)
    have hc : toExceptCall tryModel 0 = Except.error () := by
      simp [toExceptCall, h]
    rw [retryRun_step (toExceptCall tryModel) (fun _ => true) d 0 R' () hc rfl]
    show 2 ≤ (retryRun (toExceptCall tryModel) (fun _ => true) d (0 + 1) R').numAttempts + 1
    have := retryRun_numAttempts_pos (toExceptCall tryModel) (fun _ => true) d (0 + 1) R'
    omega

/-- C1 counterexample: the claim says an `Unauthorized` failure is fatal —
exactly one attempt is made. In `ClaudeGatewayModel._generate` an HTTP 401
raised by `response.raise_for_status()` is a `requests.exceptions.HTTPError`,
which falls into the retryable branch: with `max_retries = 1` the candidate
gets 2 attempts, not 1. -/
theorem c1_counterexample :
    claudeIsRetryable (ClaudeError.httpError 401) = true ∧
    (retryRun (fun _ => (Except.error (ClaudeError.httpError 401) : Except ClaudeError String))
      claudeIsRetryable 10 0 1).numAttempts = 2 := by
  exact ⟨by decide, by decide⟩

/-- C1 witness: the amended theorem applied at a fatal ClaudeGateway error
(a `KeyError` escaping the response parsing) and at a retryable vLLM error. -/
theorem c1_witness :
    retryRun (fun _ => (Except.error (ClaudeError.otherError "KeyError") : Except ClaudeError String))
      claudeIsRetryable 10 0 5 = ⟨none, 1, []⟩ ∧
    2 ≤ (retryRun (fun _ => (Except.error VllmError.rateLimitError : Except VllmError String))
      vllmIsRetryable 10 0 3).numAttempts := by
  constructor
  · exact (c1_error_classification.1 String ClaudeError
      (fun _ => Except.error (ClaudeError.otherError "KeyError")) claudeIsRetryable
      10 5 (ClaudeError.otherError "KeyError") rfl).1 (by decide)
  · exact (c1_error_classification.1 String VllmError
      (fun _ => Except.error VllmError.rateLimitError) vllmIsRetryable
      10 3 VllmError.rateLimitError rfl).2 (by decide) (by decide)

/-- C2 (amended): the top-level `LiteLLMModel._generate` never raises for
operational failures (every exception is swallowed by `_try_model`), but on
exhaustion of the whole chain it returns the untyped Python `None`, not a
typed `Exhausted` outcome: the returned value carries no per-candidate
failure history at all — the run is observationally identical whatever the
candidates' errors were.  The same holds per candidate for the Gemini,
ClaudeGateway and vLLM `_generate` loops, which also return `None`. -/
theorem c2_exhausted_returns_untyped_none :
    (∀ (α : Type) (raw : String → Nat → Except String α) (R : Nat) (d : ℚ)
        (models : List String),
        (∀ m n, ∃ e, raw m n = Except.error e) →
        (litellmGenerateRaw raw R d models).result = none ∧
        litellmGenerateRaw raw R d models =
          litellmGenerateRaw (fun _ _ => Except.error "") R d models) ∧
    (∀ (α ε : Type) (call : Nat → Except ε α) (retryable : ε → Bool)
        (d : ℚ) (R : Nat),
        (∀ n, ∃ e, call n = Except.error e) →
        (retryRun call retryable d 0 R).result = none) := by
  constructor
  · intro α raw R d models h
    have h1 : ∀ m n, ((raw m n).toOption : Option α) = none := by
      intro m n
      obtain ⟨e, he⟩ := h m n
      rw [he]
      rfl
    have h2 : ∀ (m : String) (n : Nat),
        ((Except.error "" : Except String α).toOption : Option α) = none := by
      intro m n
      rfl
    unfold litellmGenerateRaw
    rw [litellmChainRun_allNone (fun m n => (raw m n).toOption) R d h1 models,
      litellmChainRun_allNone (fun m n => (Except.error "" : Except String α).toOption)
        R d h2 models]
    exact ⟨rfl, rfl⟩
  · intro α ε call retryable d R h
    exact retryRun_allError_result call retryable d h R 0

/-- C2 counterexample: a chain whose primary fails with a rate limit and a
chain whose primary fails with an authentication error produce *identical*
outputs — the bare `None` — so the return value cannot carry the
`(candidate, last_error)` history the claim promises. -/
theorem c2_counterexample :
    litellmGenerateRaw
        (fun _ _ => (Except.error "RateLimitError: 429" : Except String Nat))
        1 2 ["gpt-4o", "gpt-4o-mini"] =
      litellmGenerateRaw
        (fun _ _ => (Except.error "AuthenticationError: invalid key" : Except String Nat))
        1 2 ["gpt-4o", "gpt-4o-mini"] ∧
    (litellmGenerateRaw
        (fun _ _ => (Except.error "RateLimitError: 429" : Except String Nat))
        1 2 ["gpt-4o", "gpt-4o-mini"]).result = none := by
  exact ⟨rfl, rfl⟩

/-- C2 witness: the amended theorem applied to a concrete always-failing
chain of two models. -/
theorem c2_witness :
    (litellmGenerateRaw
        (fun _ _ => (Except.error "ServerError: 500" : Except String Nat))
        0 10 ["a", "b"]).result = none := by
  exact (c2_exhausted_returns_untyped_none.1 Nat
    (fun _ _ => Except.error "ServerError: 500") 0 10 ["a", "b"]
    (fun _ _ => ⟨"ServerError: 500", rfl⟩)).1

/-- C3: with `max_retries = R`, a candidate that always fails retryably
receives exactly `R + 1` attempts, after which its loop reports exhaustion
(`None`); in the LiteLLM fallback chain the controller then advances to the
next candidate. -/
theorem c3_retry_count :
    (∀ (α ε : Type) (call : Nat → Except ε α) (retryable : ε → Bool)
        (d : ℚ) (R : Nat),
        (∀ n, ∃ e, call n = Except.error e ∧ retryable e = true) →
        (retryRun call retryable d 0 R).numAttempts = R + 1 ∧
        (retryRun call retryable d 0 R).result = none) ∧
    (∀ (α : Type) (tryModel : String → Nat → Option α) (R : Nat) (d : ℚ)
        (m : String) (ms : List String),
        (∀ n, tryModel m n = none) →
        (litellmChainRun tryModel R d (m :: ms)).modelAttempts =
          (m, R + 1) :: (litellmChainRun tryModel R d ms).modelAttempts) := by
  constructor
  · intro α ε call retryable d R h
    rw [retryRun_allFail call retryable d h R 0]
    exact ⟨rfl, rfl⟩
  · intro α tryModel R d m ms h
    have hcall : ∀ k, ∃ e, toExceptCall (tryModel m) k = .error e ∧
        (fun (_ : Unit) => true) e = true := by
      intro k
      exact ⟨(), by simp [toExceptCall, h k], rfl⟩
    have hres : (retryRun (toExceptCall (tryModel m)) (fun _ => true) d 0 R).result = none := by
      rw [retryRun_allFail (toExceptCall (tryModel m)) (fun _ => true) d hcall R 0]
    rw [litellmChainRun_headFail tryModel R d m ms hres,
      retryRun_allFail (toExceptCall (tryModel m)) (fun _ => true) d hcall R 0]

/-- C3 witness: a Gemini candidate failing three times with a timeout under
`max_retries = 2`, and a two-model LiteLLM chain whose first model always
fails under `max_retries = 1`. -/
theorem c3_witness :
    (retryRun (fun _ => (Except.error "timeout" : Except String Nat))
        geminiIsRetryable 10 0 2).numAttempts = 3 ∧
    (litellmChainRun (fun _ _ => (none : Option Nat)) 1 2 ["a", "b"]).modelAttempts =
      ("a", 2) :: (litellmChainRun (fun _ _ => (none : Option Nat)) 1 2 ["b"]).modelAttempts := by
  constructor
  · exact (c3_retry_count.1 Nat String (fun _ => Except.error "timeout")
      geminiIsRetryable 10 2 (fun _ => ⟨"timeout", rfl, by decide⟩)).1
  · exact c3_retry_count.2 Nat (fun _ _ => none) 1 2 "a" ["b"] (fun _ => rfl)

/-- C4 (amended): for the Gemini, ClaudeGateway and vLLM adapters the
per-invocation defaults are `max_retries = 0` (a single attempt, no
implicit retry) and `base_delay = 10.0`; the LiteLLM adapter instead
defaults to `max_retries = 3` and `base_delay = 2.0`.  All four read both
values from per-invocation keyword arguments, and an explicit
`max_retries = R` yields exactly `R + 1` attempts with the delays built
from the explicit `base_delay`. -/
theorem c4_retry_defaults :
    (∀ (α : Type) (call : Nat → Except String α) (e : String),
        call 0 = Except.error e → geminiGenerate call ⟨none, none⟩ = ⟨none, 1, []⟩) ∧
    (∀ (α : Type) (call : Nat → Except ClaudeError α) (e : ClaudeError),
        call 0 = Except.error e → claudeGenerate call ⟨none, none⟩ = ⟨none, 1, []⟩) ∧
    (∀ (α : Type) (call : Nat → Except VllmError α) (e : VllmError),
        call 0 = Except.error e → vllmGenerate call ⟨none, none⟩ = ⟨none, 1, []⟩) ∧
    (∀ (α : Type) (call : Nat → Except String α) (r : Option Nat),
        geminiGenerate call ⟨r, none⟩ = geminiGenerate call ⟨r, some 10⟩) ∧
    (∀ (α : Type) (call : Nat → Except ClaudeError α) (r : Option Nat),
        claudeGenerate call ⟨r, none⟩ = claudeGenerate call ⟨r, some 10⟩) ∧
    (∀ (α : Type) (call : Nat → Except VllmError α) (r : Option Nat),
        vllmGenerate call ⟨r, none⟩ = vllmGenerate call ⟨r, some 10⟩) ∧
    (∀ (α : Type) (call : Nat → Except String α) (R : Nat) (d : ℚ),
        (∀ n, ∃ e, call n = Except.error e ∧ geminiIsRetryable e = true) →
        (geminiGenerate call ⟨some R, some d⟩).numAttempts = R + 1 ∧
        (geminiGenerate call ⟨some R, some d⟩).delays =
          (List.range R).map (fun k => d * 2 ^ k)) ∧
    (∀ (α : Type) (tryModel : String → Nat → Option α) (cfg : LiteLLMConfig),
        litellmGenerate tryModel ⟨none, none⟩ cfg =
          litellmGenerate tryModel ⟨some 3, some 2⟩ cfg) := by
  refine ⟨?_, ?_, ?_, fun α call r => rfl, fun α call r => rfl, fun α call r => rfl,
    ?_, fun α tryModel cfg => rfl⟩
  · intro α call e h
    exact retryRun_fuelZero_error call geminiIsRetryable 10 0 e h
  · intro α call e h
    exact retryRun_fuelZero_error call claudeIsRetryable 10 0 e h
  · intro α call e h
    exact retryRun_fuelZero_error call vllmIsRetryable 10 0 e h
  · intro α call R d h
    show (retryRun call geminiIsRetryable d 0 R).numAttempts = R + 1 ∧
      (retryRun call geminiIsRetryable d 0 R).delays = _
    rw [retryRun_allFail call geminiIsRetryable d h R 0]
    refine ⟨rfl, ?_⟩
    simp

/-- C4 counterexample: the claim says every adapter defaults to
`max_retries = 0` and `base_delay = 10`. With no keyword arguments,
`LiteLLMModel._generate` gives an always-failing model 4 attempts
(`max_retries = 3`) and sleeps 2, 4, 8 seconds (`base_delay = 2.0`). -/
theorem c4_counterexample :
    (litellmGenerate (fun _ _ => (none : Option Nat)) ⟨none, none⟩
        ⟨"gpt-4o", []⟩).modelAttempts = [("gpt-4o", 4)] ∧
    (litellmGenerate (fun _ _ => (none : Option Nat)) ⟨none, none⟩
        ⟨"gpt-4o", []⟩).delays = [2, 4, 8] := by
  constructor
  · rfl
  · show ([2 * 2 ^ 0, 2 * 2 ^ 1, 2 * 2 ^ 2] ++ [] : List ℚ) = [2, 4, 8]
    norm_num

/-- C4 witness: the amended theorem applied at a concrete failing call with
no keyword arguments (Gemini, one attempt) and at explicit keyword
arguments `max_retries = 2`, `base_delay = 5` (three attempts, delays 5
and 10). -/
theorem c4_witness :
    geminiGenerate (fun _ => (Except.error "boom" : Except String Nat)) ⟨none, none⟩ =
      ⟨none, 1, []⟩ ∧
    (geminiGenerate (fun _ => (Except.error "timeout" : Except String Nat))
        ⟨some 2, some 5⟩).numAttempts = 3 := by
  constructor
  · exact c4_retry_defaults.1 Nat (fun _ => Except.error "boom") "boom" rfl
  · exact (c4_retry_defaults.2.2.2.2.2.2.1 Nat (fun _ => Except.error "timeout") 2 5
      (fun _ => ⟨"timeout", rfl, by decide⟩)).1

/-- C5: the fallback chain tries candidates strictly in configured order —
the models actually touched are always an initial segment of
`[config.model_name] + config.fallback_models` — and when the first
candidate's retry sequence ends in success the chain returns that result
immediately, with no attempt recorded against any later candidate. -/
theorem c5_fallback_order :
    (∀ (α : Type) (tryModel : String → Nat → Option α) (R : Nat) (d : ℚ)
        (m : String) (ms : List String) (a : α),
        (retryRun (toExceptCall (tryModel m)) (fun _ => true) d 0 R).result = some a →
        litellmChainRun tryModel R d (m :: ms) =
          ⟨some a,
           [(m, (retryRun (toExceptCall (tryModel m)) (fun _ => true) d 0 R).numAttempts)],
           (retryRun (toExceptCall (tryModel m)) (fun _ => true) d 0 R).delays⟩) ∧
    (∀ (α : Type) (tryModel : String → Nat → Option α) (kw : GenKwargs)
        (cfg : LiteLLMConfig),
        ∃ t, ((litellmGenerate tryModel kw cfg).modelAttempts.map Prod.fst) ++ t =
          cfg.model_name :: cfg.fallback_models) := by
  constructor
  · intro α tryModel R d m ms a h
    exact litellmChainRun_headSuccess tryModel R d m ms a h
  · intro α tryModel kw cfg
    exact litellmChainRun_models_initial tryModel (kw.max_retries.getD 3)
      (kw.base_delay.getD 2) (cfg.model_name :: cfg.fallback_models)

/-- C5 witness: a chain whose primary model succeeds at once never touches
the fallback model. -/
theorem c5_witness :
    litellmChainRun (fun m _ => if m = "primary" then some 42 else (none : Option Nat))
        0 10 ["primary", "backup"] = ⟨some 42, [("primary", 1)], []⟩ := by
  exact (c5_fallback_order.1 Nat
    (fun m _ => if m = "primary" then some 42 else none) 0 10 "primary" ["backup"]
    42 rfl).trans rfl

/-- C9: under always-retryable failure with `max_retries = R` and a base
delay `d`, the delays slept are exactly `[d*2^0, d*2^1, ..., d*2^(R-1)]`:
the delay before attempt `n` (`1 ≤ n ≤ R`) is `d * 2^(n-1)` — pure
exponential backoff, no jitter, no upper cap. -/
theorem c9_backoff_schedule :
    ∀ (α ε : Type) (call : Nat → Except ε α) (retryable : ε → Bool)
      (d : ℚ) (R : Nat),
      (∀ n, ∃ e, call n = Except.error e ∧ retryable e = true) →
      (retryRun call retryable d 0 R).delays =
        (List.range R).map (fun k => d * 2 ^ k) ∧
      (∀ n, 1 ≤ n → n ≤ R →
        (retryRun call retryable d 0 R).delays.get? (n - 1) =
          some (d * 2 ^ (n - 1))) := by
  intro α ε call retryable d R h
  have hdel : (retryRun call retryable d 0 R).delays =
      (List.range R).map (fun k => d * 2 ^ k) := by
    rw [retryRun_allFail call retryable d h R 0]
    simp
  refine ⟨hdel, ?_⟩
  intro n h1 hR
  rw [hdel, List.get?_map, List.get?_range (by omega)]
  rfl

/-- C9 witness: `max_retries = 3`, `base_delay = 5`: the slept delays are
5, 10, 20 and the delay before attempt 2 is `5 * 2^1 = 10`. -/
theorem c9_witness :
    (retryRun (fun _ => (Except.error "timeout" : Except String Nat))
        geminiIsRetryable 5 0 3).delays = [5, 10, 20] ∧
    (retryRun (fun _ => (Except.error "timeout" : Except String Nat))
        geminiIsRetryable 5 0 3).delays.get? 1 = some 10 := by
  have h := c9_backoff_schedule Nat String (fun _ => Except.error "timeout")
    geminiIsRetryable 5 3 (fun _ => ⟨"timeout", rfl, by decide⟩)
  constructor
  · refine h.1.trans ?_
    norm_num [List.range_succ]
  · refine (h.2 2 (by norm_num) (by norm_num)).trans ?_
    norm_num

/-! ## JSON values, `json.dumps` and `json.loads`

`ClaudeGatewayModel` serializes tool-call arguments with `json.dumps` and
parses them with `json.loads`; `LiteLLMModel._try_model` parses structured
output with `json.loads`.  The fragment modelled here is JSON with
integer numbers (no floats), `\uXXXX`-free strings and insertion-ordered
objects — exactly the values that the adapters' own `json.dumps` calls
produce.  `dumps` uses the Python defaults: separators `", "` and `": "`,
escapes `"` `\` `\n` `\t` `\r`. -/

mutual
inductive Json where
  | null : Json
  | bool (b : Bool) : Json
  | num (n : Int) : Json
  | str (s : String) : Json
  | arr (elems : JsonArr) : Json
  | obj (fields : JsonObj) : Json
deriving Repr, DecidableEq

inductive JsonArr where
  | nil : JsonArr
  | cons (hd : Json) (tl : JsonArr) : JsonArr
deriving Repr, DecidableEq

inductive JsonObj where
  | nil : JsonObj
  | cons (key : String) (val : Json) (tl : JsonObj) : JsonObj
deriving Repr, DecidableEq
end

/-- Decimal digit to character. -/
def digitChar : Nat → Char
  | 0 => '0'
  | 1 => '1'
  | 2 => '2'
  | 3 => '3'
  | 4 => '4'
  | 5 => '5'
  | 6 => '6'
  | 7 => '7'
  | 8 => '8'
  | _ => '9'

/-- Little-endian decimal digits of `n` (`fuel ≥ n` makes it total). -/
def dumpNatAux : Nat → Nat → List Char
  | 0, _ => []
  | fuel + 1, n => if n = 0 then [] else digitChar (n % 10) :: dumpNatAux fuel (n / 10)

/-- Decimal representation of a natural number, as Python prints it. -/
def dumpNat (n : Nat) : List Char :=
  if n = 0 then ['0'] else (dumpNatAux n n).reverse

/-- Decimal representation of a Python int. -/
def dumpInt (i : Int) : List Char :=
  if i < 0 then '-' :: dumpNat i.natAbs else dumpNat i.toNat

/-- `json.dumps` escaping of one character (the escapes the adapters'
values can contain; other characters are emitted verbatim). -/
def escChar (c : Char) : List Char :=
  if c = '"' then ['\\', '"']
  else if c = '\\' then ['\\', '\\']
  else if c = '\n' then ['\\', 'n']
  else if c = '\t' then ['\\', 't']
  else if c = '\r' then ['\\', 'r']
  else [c]

/-- `json.dumps` escaping of a string body. -/
def escList : List Char → List Char
  | [] => []
  | c :: cs => escChar c ++ escList cs

/-- A dumped string, `"..."` with escapes. -/
def dumpStr (s : String) : List Char := '"' :: (escList s.data ++ ['"'])

mutual
/-- `json.dumps(v)` with the default separators, as a character list. -/
def dumpV : Json → List Char
  | .null => "null".data
  | .bool true => "true".data
  | .bool false => "false".data
  | .num i => dumpInt i
  | .str s => dumpStr s
  | .arr a => '[' :: (dumpElems a ++ [']'])
  | .obj o => '{' :: (dumpFields o ++ ['}'])

/-- Array elements joined by `", "`. -/
def dumpElems : JsonArr → List Char
  | .nil => []
  | .cons v tl => dumpV v ++ dumpElemsTail tl

/-- `", "` before each further array element. -/
def dumpElemsTail : JsonArr → List Char
  | .nil => []
  | .cons v tl => ',' :: ' ' :: (dumpV v ++ dumpElemsTail tl)

/-- Object entries `"key": value` joined by `", "`. -/
def dumpFields : JsonObj → List Char
  | .nil => []
  | .cons k v tl => dumpStr k ++ ':' :: ' ' :: (dumpV v ++ dumpFieldsTail tl)

/-- `", "` before each further object entry. -/
def dumpFieldsTail : JsonObj → List Char
  | .nil => []
  | .cons k v tl =>
    ',' :: ' ' :: (dumpStr k ++ ':' :: ' ' :: (dumpV v ++ dumpFieldsTail tl))
end

/-- `json.dumps` on a value of the modelled fragment. -/
def dumps (v : Json) : String := ⟨dumpV v⟩

/-- The whitespace characters `json.loads` skips. -/
def isJsonWs (c : Char) : Bool :=
  c = ' ' || c = '\t' || c = '\n' || c = '\r'

/-- Skip insignificant whitespace. -/
def skipWs (s : List Char) : List Char := s.dropWhile isJsonWs

/-- Inverse of `escChar` on escape codes. -/
def unescChar (c : Char) : Option Char :=
  if c = '"' then some '"'
  else if c = '\\' then some '\\'
  else if c = '/' then some '/'
  else if c = 'n' then some '\n'
  else if c = 't' then some '\t'
  else if c = 'r' then some '\r'
  else if c = 'b' then some (Char.ofNat 8)
  else if c = 'f' then some (Char.ofNat 12)
  else none

mutual
/-- Parse a string body up to (and consuming) the closing quote. -/
def parseStringBody : List Char → Option (List Char × List Char)
  | [] => none
  | c :: rest =>
    if c = '"' then some ([], rest)
    else if c = '\\' then parseStringEsc rest
    else (parseStringBody rest).map (fun p => (c :: p.1, p.2))

/-- Parse the character after a backslash. -/
def parseStringEsc : List Char → Option (List Char × List Char)
  | [] => none
  | e :: rest' =>
    match unescChar e with
    | some c' => (parseStringBody rest').map (fun p => (c' :: p.1, p.2))
    | none => none
end

/-- Value of a big-endian list of decimal digit characters. -/
def digitsToNat (cs : List Char) : Nat :=
  cs.foldl (fun a c => 10 * a + (c.toNat - 48)) 0

mutual
/-- Recursive-descent parser for the modelled JSON fragment, matching
`json.loads` on it: returns the value and the unconsumed input.  `fuel`
bounds the nesting of recursive calls. -/
def parseVal : Nat → List Char → Option (Json × List Char)
  | 0, _ => none
  | fuel + 1, s =>
    match skipWs s with
    | [] => none
    | c :: rest =>
      if c = 'n' then
        match rest with
        | 'u' :: 'l' :: 'l' :: r => some (.null, r)
        | _ => none
      else if c = 't' then
        match rest with
        | 'r' :: 'u' :: 'e' :: r => some (.bool true, r)
        | _ => none
      else if c = 'f' then
        match rest with
        | 'a' :: 'l' :: 's' :: 'e' :: r => some (.bool false, r)
        | _ => none
      else if c = '"' then
        (parseStringBody rest).map (fun p => (.str ⟨p.1⟩, p.2))
      else if c = '[' then
        if (skipWs rest).head? = some ']' then some (.arr .nil, (skipWs rest).tail)
        else (parseElems fuel rest).map (fun p => (.arr p.1, p.2))
      else if c = '{' then
        if (skipWs rest).head? = some '}' then some (.obj .nil, (skipWs rest).tail)
        else (parseFields fuel rest).map (fun p => (.obj p.1, p.2))
      else if c = '-' then
        match rest.takeWhile Char.isDigit with
        | [] => none
        | ds => some (.num (-(digitsToNat ds : Int)), rest.dropWhile Char.isDigit)
      else if c.isDigit then
        some (.num (digitsToNat ((c :: rest).takeWhile Char.isDigit) : Int),
          (c :: rest).dropWhile Char.isDigit)
      else none

/-- Parse one or more comma-separated array elements and the closing `]`. -/
def parseElems : Nat → List Char → Option (JsonArr × List Char)
  | 0, _ => none
  | fuel + 1, s =>
    match parseVal fuel s with
    | none => none
    | some (v, r) =>
      let r' := skipWs r
      if r'.head? = some ',' then
        (parseElems fuel r'.tail).map (fun p => (.cons v p.1, p.2))
      else if r'.head? = some ']' then some (.cons v .nil, r'.tail)
      else none

/-- Parse one or more `"key": value` entries and the closing `}`. -/
def parseFields : Nat → List Char → Option (JsonObj × List Char)
  | 0, _ => none
  | fuel + 1, s =>
    match skipWs s with
    | '"' :: r =>
      match parseStringBody r with
      | none => none
      | some (k, r1) =>
        match skipWs r1 with
        | ':' :: r2 =>
          match parseVal fuel r2 with
          | none => none
          | some (v, r3) =>
            let r' := skipWs r3
            if r'.head? = some ',' then
              (parseFields fuel r'.tail).map (fun p => (.cons ⟨k⟩ v p.1, p.2))
            else if r'.head? = some '}' then some (.cons ⟨k⟩ v .nil, r'.tail)
            else none
        | _ => none
    | _ => none
end

/-- `json.loads` on the modelled fragment: parse a complete value,
tolerating trailing whitespace only. -/
def loads (s : String) : Option Json :=
  match parseVal (s.data.length + 1) s.data with
  | some (v, rest) => if skipWs rest = [] then some v else none
  | none => none

/-- A list whose head cannot be mistaken for more digits of a preceding
number. -/
def numSafe : List Char → Bool
  | [] => true
  | c :: _ => !c.isDigit

/-! ### Round-trip lemmas: helpers -/

theorem skipWs_cons_neg (c : Char) (l : List Char) (h : isJsonWs c = false) :
    skipWs (c :: l) = c :: l := by
  unfold skipWs
  rw [List.dropWhile_cons, h]
  rfl

theorem skipWs_cons_pos (c : Char) (l : List Char) (h : isJsonWs c = true) :
    skipWs (c :: l) = skipWs l := by
  unfold skipWs
  rw [List.dropWhile_cons, h]
  rfl

theorem parseVal_ws (c : Char) (h : isJsonWs c = true) :
    ∀ (fuel : Nat) (l : List Char), parseVal fuel (c :: l) = parseVal fuel l := by
  intro fuel l
  cases fuel with
  | zero => rfl
  | succ f =>
    show (match skipWs (c :: l) with
      | [] => none
      | c :: rest => _) = _
    rw [skipWs_cons_pos c l h]
    rfl

theorem parseElems_ws (c : Char) (h : isJsonWs c = true) :
    ∀ (fuel : Nat) (l : List Char), parseElems fuel (c :: l) = parseElems fuel l := by
  intro fuel l
  cases fuel with
  | zero => rfl
  | succ f =>
    show (match parseVal f (c :: l) with
      | none => none
      | some (v, r) => _) = _
    rw [parseVal_ws c h f l]
    rfl

theorem parseFields_ws (c : Char) (h : isJsonWs c = true) :
    ∀ (fuel : Nat) (l : List Char), parseFields fuel (c :: l) = parseFields fuel l := by
  intro fuel l
  cases fuel with
  | zero => rfl
  | succ f =>
    show (match skipWs (c :: l) with
      | '"' :: r => _
      | _ => none) = _
    rw [skipWs_cons_pos c l h]
    rfl

theorem digitChar_isDigit : ∀ d, (digitChar d).isDigit = true := by
  intro d
  rcases d with _ | _ | _ | _ | _ | _ | _ | _ | _ | d <;> rfl

theorem isDigit_ne (c x : Char) (hc : c.isDigit = true) (hx : x.isDigit = false) :
    ¬(c = x) := by
  intro h
  rw [h] at hc
  rw [hc] at hx
  cases hx

theorem isDigit_not_ws (c : Char) (hc : c.isDigit = true) : isJsonWs c = false := by
  unfold isJsonWs
  have h1 : ¬(c = ' ') := isDigit_ne c ' ' hc (by decide)
  have h2 : ¬(c = '\t') := isDigit_ne c '\t' hc (by decide)
  have h3 : ¬(c = '\n') := isDigit_ne c '\n' hc (by decide)
  have h4 : ¬(c = '\r') := isDigit_ne c '\r' hc (by decide)
  simp [h1, h2, h3, h4]

theorem dumpNatAux_eq_digits :
    ∀ (fuel n : Nat), n ≤ fuel → dumpNatAux fuel n = (Nat.digits 10 n).map digitChar := by
  intro fuel
  induction fuel with
  | zero =>
    intro n hn
    interval_cases n
    simp [dumpNatAux]
  | succ f ih =>
    intro n hn
    by_cases h0 : n = 0
    · subst h0
      simp [dumpNatAux]
    · have hrec : Nat.digits 10 n = n % 10 :: Nat.digits 10 (n / 10) :=
        Nat.digits_def' (by norm_num) (Nat.pos_of_ne_zero h0)
      show (if n = 0 then [] else digitChar (n % 10) :: dumpNatAux f (n / 10)) = _
      rw [if_neg h0, hrec, List.map_cons, ih (n / 10)
        (by
          have := Nat.div_lt_self (Nat.pos_of_ne_zero h0) (by norm_num : 1 < 10)
          omega)]

theorem digitChar_toNat (d : Nat) (hd : d < 10) : (digitChar d).toNat - 48 = d := by
  interval_cases d <;> rfl

theorem digitsToNat_rev_map (l : List Nat) (hl : ∀ d ∈ l, d < 10) :
    digitsToNat ((l.map digitChar).reverse) = Nat.ofDigits 10 l := by
  induction l with
  | nil => rfl
  | cons d t ih =>
    have hd : d < 10 := hl d (List.mem_cons_self d t)
    have ht : ∀ x ∈ t, x < 10 := fun x hx => hl x (List.mem_cons_of_mem d hx)
    rw [List.map_cons, List.reverse_cons]
    unfold digitsToNat
    rw [List.foldl_append]
    show 10 * digitsToNat ((t.map digitChar).reverse) + ((digitChar d).toNat - 48) = _
    rw [ih ht, digitChar_toNat d hd, Nat.ofDigits_cons]
    omega

theorem digitsToNat_dumpNat (n : Nat) : digitsToNat (dumpNat n) = n := by
  by_cases h0 : n = 0
  · subst h0
    rfl
  · show digitsToNat (if n = 0 then ['0'] else (dumpNatAux n n).reverse) = n
    rw [if_neg h0, dumpNatAux_eq_digits n n le_rfl,
      digitsToNat_rev_map (Nat.digits 10 n)
        (fun d hd => Nat.digits_lt_base (by norm_num) hd),
      Nat.ofDigits_digits]

theorem dumpNatAux_all_digits :
    ∀ (fuel n : Nat), ∀ c ∈ dumpNatAux fuel n, c.isDigit = true := by
  intro fuel
  induction fuel with
  | zero => intro n c hc; cases hc
  | succ f ih =>
    intro n c hc
    show c.isDigit = true
    by_cases h0 : n = 0
    · subst h0
      cases hc
    · rw [show dumpNatAux (f + 1) n =
        (if n = 0 then [] else digitChar (n % 10) :: dumpNatAux f (n / 10)) from rfl,
        if_neg h0] at hc
      rcases List.mem_cons.mp hc with h | h
      · rw [h]
        exact digitChar_isDigit (n % 10)
      · exact ih (n / 10) c h

theorem dumpNat_all_digits (n : Nat) : ∀ c ∈ dumpNat n, c.isDigit = true := by
  intro c hc
  unfold dumpNat at hc
  by_cases h0 : n = 0
  · rw [if_pos h0] at hc
    rcases List.mem_singleton.mp hc with rfl
    rfl
  · rw [if_neg h0] at hc
    exact dumpNatAux_all_digits n n c (List.mem_reverse.mp hc)

theorem dumpNat_ne_nil (n : Nat) : dumpNat n ≠ [] := by
  unfold dumpNat
  by_cases h0 : n = 0
  · rw [if_pos h0]
    intro h
    cases h
  · rw [if_neg h0]
    obtain ⟨f, rfl⟩ := Nat.exists_eq_succ_of_ne_zero h0
    show (dumpNatAux (f + 1) (f + 1)).reverse ≠ []
    rw [show dumpNatAux (f + 1) (f + 1) =
      (if f + 1 = 0 then [] else digitChar ((f + 1) % 10) :: dumpNatAux f ((f + 1) / 10)) from rfl,
      if_neg h0]
    simp

/-- Splitting `takeWhile`/`dropWhile` around an all-digit block followed by
a `numSafe` remainder. -/
theorem takeWhile_digits_append (a b : List Char)
    (ha : ∀ c ∈ a, c.isDigit = true) (hb : numSafe b = true) :
    (a ++ b).takeWhile Char.isDigit = a ∧ (a ++ b).dropWhile Char.isDigit = b := by
  induction a with
  | nil =>
    simp only [List.nil_append]
    cases b with
    | nil => exact ⟨rfl, rfl⟩
    | cons c t =>
      have hc : c.isDigit = false := by
        simpa [numSafe] using hb
      rw [List.takeWhile_cons, List.dropWhile_cons, hc]
      exact ⟨rfl, rfl⟩
  | cons c t ih =>
    have hc : c.isDigit = true := ha c (List.mem_cons_self c t)
    have ht : ∀ x ∈ t, x.isDigit = true := fun x hx => ha x (List.mem_cons_of_mem c hx)
    obtain ⟨h1, h2⟩ := ih ht
    rw [List.cons_append, List.takeWhile_cons, List.dropWhile_cons, hc]
    exact ⟨by simp [h1], by simp [h2]⟩

/-- The escape round trip: parsing an escaped string body recovers the
original characters and consumes the closing quote. -/
theorem parseStringBody_esc :
    ∀ (cs rest : List Char),
      parseStringBody (escList cs ++ '"' :: rest) = some (cs, rest) := by
  intro cs
  induction cs with
  | nil => intro rest; rfl
  | cons c t ih =>
    intro rest
    show parseStringBody ((escChar c ++ escList t) ++ '"' :: rest) = some (c :: t, rest)
    rw [List.append_assoc]
    unfold escChar
    by_cases h1 : c = '"'
    · rw [if_pos h1]
      show parseStringBody ('\\' :: '"' :: (escList t ++ '"' :: rest)) = _
      show (parseStringBody (escList t ++ '"' :: rest)).map (fun p => ('"' :: p.1, p.2)) = _
      rw [ih rest]
      rw [h1]
      rfl
    · rw [if_neg h1]
      by_cases h2 : c = '\\'
      · rw [if_pos h2]
        show parseStringBody ('\\' :: '\\' :: (escList t ++ '"' :: rest)) = _
        show (parseStringBody (escList t ++ '"' :: rest)).map (fun p => ('\\' :: p.1, p.2)) = _
        rw [ih rest]
        rw [h2]
        rfl
      · rw [if_neg h2]
        by_cases h3 : c = '\n'
        · rw [if_pos h3]
          show (parseStringBody (escList t ++ '"' :: rest)).map (fun p => ('\n' :: p.1, p.2)) = _
          rw [ih rest]
          rw [h3]
          rfl
        · rw [if_neg h3]
          by_cases h4 : c = '\t'
          · rw [if_pos h4]
            show (parseStringBody (escList t ++ '"' :: rest)).map (fun p => ('\t' :: p.1, p.2)) = _
            rw [ih rest]
            rw [h4]
            rfl
          · rw [if_neg h4]
            by_cases h5 : c = '\r'
            · rw [if_pos h5]
              show (parseStringBody (escList t ++ '"' :: rest)).map (fun p => ('\r' :: p.1, p.2)) = _
              rw [ih rest]
              rw [h5]
              rfl
            · rw [if_neg h5]
              show (if c = '"' then some ([], escList t ++ '"' :: rest)
                else if c = '\\' then parseStringEsc (escList t ++ '"' :: rest)
                else (parseStringBody (escList t ++ '"' :: rest)).map
                  (fun p => (c :: p.1, p.2))) = _
              rw [if_neg h1, if_neg h2, ih rest]
              rfl

/-- Dispatch of the parser on a digit head: the number branch fires. -/
theorem parseVal_cons_digit (f : Nat) (c : Char) (l : List Char) (hd : c.isDigit = true) :
    parseVal (f + 1) (c :: l) =
      some (Json.num (digitsToNat ((c :: l).takeWhile Char.isDigit) : Int),
        (c :: l).dropWhile Char.isDigit) := by
  have hws : isJsonWs c = false := isDigit_not_ws c hd
  show (match skipWs (c :: l) with
    | [] => none
    | c :: rest =>
      if c = 'n' then
        match rest with
        | 'u' :: 'l' :: 'l' :: r => some (Json.null, r)
        | _ => none
      else if c = 't' then
        match rest with
        | 'r' :: 'u' :: 'e' :: r => some (Json.bool true, r)
        | _ => none
      else if c = 'f' then
        match rest with
        | 'a' :: 'l' :: 's' :: 'e' :: r => some (Json.bool false, r)
        | _ => none
      else if c = '"' then
        (parseStringBody rest).map (fun (p : List Char × List Char) => (Json.str ⟨p.1⟩, p.2))
      else if c = '[' then
        if (skipWs rest).head? = some ']' then some (Json.arr JsonArr.nil, (skipWs rest).tail)
        else (parseElems f rest).map (fun (p : JsonArr × List Char) => (Json.arr p.1, p.2))
      else if c = '{' then
        if (skipWs rest).head? = some '}' then some (Json.obj JsonObj.nil, (skipWs rest).tail)
        else (parseFields f rest).map (fun (p : JsonObj × List Char) => (Json.obj p.1, p.2))
      else if c = '-' then
        match rest.takeWhile Char.isDigit with
        | [] => none
        | ds => some (Json.num (-(digitsToNat ds : Int)), rest.dropWhile Char.isDigit)
      else if c.isDigit then
        some (Json.num (digitsToNat ((c :: rest).takeWhile Char.isDigit) : Int),
          (c :: rest).dropWhile Char.isDigit)
      else none) = _
  rw [skipWs_cons_neg c l hws]
  simp only [if_neg (isDigit_ne c 'n' hd (by decide)),
    if_neg (isDigit_ne c 't' hd (by decide)),
    if_neg (isDigit_ne c 'f' hd (by decide)),
    if_neg (isDigit_ne c '"' hd (by decide)),
    if_neg (isDigit_ne c '[' hd (by decide)),
    if_neg (isDigit_ne c '{' hd (by decide)),
    if_neg (isDigit_ne c '-' hd (by decide)), hd, if_true]

mutual
/-- Fuel sufficient for `parseVal` on the dump of `v`. -/
def needV : Json → Nat
  | .arr a => 1 + needA a
  | .obj o => 1 + needO o
  | _ => 1

/-- Fuel sufficient for `parseElems` on the dumped elements. -/
def needA : JsonArr → Nat
  | .nil => 0
  | .cons v tl => 1 + needV v + needA tl

/-- Fuel sufficient for `parseFields` on the dumped entries. -/
def needO : JsonObj → Nat
  | .nil => 0
  | .cons _ v tl => 1 + needV v + needO tl
end

theorem needV_pos (v : Json) : 1 ≤ needV v := by
  cases v <;> simp [needV]

/-- The first character of a dumped value is never whitespace nor a
closing bracket. -/
theorem dumpV_head_spec (v : Json) :
    ∃ c cs, dumpV v = c :: cs ∧ isJsonWs c = false ∧ ¬(c = ']') ∧ ¬(c = '}') := by
  cases v with
  | null => refine ⟨'n', _, rfl, ?_, ?_, ?_⟩ <;> decide
  | bool b =>
    cases b with
    | true => refine ⟨'t', _, rfl, ?_, ?_, ?_⟩ <;> decide
    | false => refine ⟨'f', _, rfl, ?_, ?_, ?_⟩ <;> decide
  | str s => refine ⟨'"', _, rfl, ?_, ?_, ?_⟩ <;> decide
  | arr a => refine ⟨'[', _, rfl, ?_, ?_, ?_⟩ <;> decide
  | obj o => refine ⟨'{', _, rfl, ?_, ?_, ?_⟩ <;> decide
  | num i =>
    show ∃ c cs, dumpInt i = c :: cs ∧ _
    unfold dumpInt
    by_cases hneg : i < 0
    · rw [if_pos hneg]
      refine ⟨'-', _, rfl, ?_, ?_, ?_⟩ <;> decide
    · rw [if_neg hneg]
      obtain ⟨c, cs, hcs⟩ := List.exists_cons_of_ne_nil (dumpNat_ne_nil i.toNat)
      have hc : c.isDigit = true := by
        refine dumpNat_all_digits i.toNat c ?_
        rw [hcs]
        exact List.mem_cons_self c cs
      exact ⟨c, cs, hcs, isDigit_not_ws c hc,
        isDigit_ne c ']' hc (by decide), isDigit_ne c '}' hc (by decide)⟩

mutual
/-- Parsing the dump of a value (followed by any `numSafe` remainder)
recovers the value exactly. -/
theorem parse_dumpV : ∀ (v : Json) (fuel : Nat) (rest : List Char),
    needV v ≤ fuel → numSafe rest = true →
    parseVal fuel (dumpV v ++ rest) = some (v, rest)
  | v, 0, rest, hf, _ => absurd (le_trans (needV_pos v) hf) (by omega)
  | .null, f + 1, rest, hf, hn => rfl
  | .bool true, f + 1, rest, hf, hn => rfl
  | .bool false, f + 1, rest, hf, hn => rfl
  | .str s, f + 1, rest, hf, hn => by
    have h : dumpV (.str s) ++ rest = '"' :: (escList s.data ++ ('"' :: rest)) := by
      simp [dumpV, dumpStr, List.append_assoc]
    rw [h]
    show (parseStringBody (escList s.data ++ ('"' :: rest))).map
      (fun p => (Json.str ⟨p.1⟩, p.2)) = _
    rw [parseStringBody_esc s.data rest]
    rfl
  | .num (Int.ofNat n), f + 1, rest, hf, hn => by
    have h : dumpV (.num (Int.ofNat n)) ++ rest = dumpNat n ++ rest := by
      show dumpInt (Int.ofNat n) ++ rest = _
      unfold dumpInt
      rw [if_neg (show ¬Int.ofNat n < 0 from Int.not_lt.mpr (Int.ofNat_nonneg n))]
      rfl
    rw [h]
    obtain ⟨c, cs, hcs⟩ := List.exists_cons_of_ne_nil (dumpNat_ne_nil n)
    have hc : c.isDigit = true := by
      refine dumpNat_all_digits n c ?_
      rw [hcs]
      exact List.mem_cons_self c cs
    have hsplit := takeWhile_digits_append (dumpNat n) rest (dumpNat_all_digits n) hn
    rw [hcs] at hsplit ⊢
    rw [List.cons_append, parseVal_cons_digit f c (cs ++ rest) hc,
      ← List.cons_append, hsplit.1, hsplit.2, ← hcs, digitsToNat_dumpNat n]
    rfl
  | .num (Int.negSucc m), f + 1, rest, hf, hn => by
    have h : dumpV (.num (Int.negSucc m)) ++ rest =
        '-' :: (dumpNat (m + 1) ++ rest) := by
      show dumpInt (Int.negSucc m) ++ rest = _
      unfold dumpInt
      rw [if_pos (Int.negSucc_lt_zero m)]
      rfl
    rw [h]
    show (match (dumpNat (m + 1) ++ rest).takeWhile Char.isDigit with
      | [] => none
      | ds => some (Json.num (-(digitsToNat ds : Int)),
          (dumpNat (m + 1) ++ rest).dropWhile Char.isDigit)) = _
    have hsplit := takeWhile_digits_append (dumpNat (m + 1)) rest
      (dumpNat_all_digits (m + 1)) hn
    rw [hsplit.1, hsplit.2]
    obtain ⟨c, cs, hcs⟩ := List.exists_cons_of_ne_nil (dumpNat_ne_nil (m + 1))
    rw [hcs]
    show some (Json.num (-(digitsToNat (c :: cs) : Int)), rest) = _
    rw [← hcs, digitsToNat_dumpNat (m + 1)]
    have hval : (-(((m : Nat) + 1 : Nat) : Int)) = Int.negSucc m := by
      rw [Int.negSucc_eq]
      norm_num
    rw [hval]
  | .arr .nil, f + 1, rest, hf, hn => rfl
  | .arr (.cons v tl), f + 1, rest, hf, hn => by
    have h : dumpV (.arr (.cons v tl)) ++ rest =
        '[' :: (dumpElems (.cons v tl) ++ (']' :: rest)) := by
      show ('[' :: (dumpElems (.cons v tl) ++ [']'])) ++ rest = _
      simp [List.append_assoc]
    rw [h]
    show (if (skipWs (dumpElems (.cons v tl) ++ (']' :: rest))).head? = some ']' then
        some (Json.arr JsonArr.nil, (skipWs (dumpElems (.cons v tl) ++ (']' :: rest))).tail)
      else (parseElems f (dumpElems (.cons v tl) ++ (']' :: rest))).map
        (fun (p : JsonArr × List Char) => (Json.arr p.1, p.2))) = _
    obtain ⟨c, cs, hcs, hws, hrb, _⟩ := dumpV_head_spec v
    have hhead : (skipWs (dumpElems (.cons v tl) ++ (']' :: rest))).head? = some c := by
      rw [show dumpElems (.cons v tl) = dumpV v ++ dumpElemsTail tl from rfl, hcs]
      rw [List.cons_append, List.cons_append, skipWs_cons_neg c _ hws]
      rfl
    rw [if_neg (by rw [hhead]; simp [hrb])]
    rw [parse_dumpElems v tl f rest (by
      have h1 : needV (.arr (.cons v tl)) = 1 + needA (.cons v tl) := rfl
      omega)]
    rfl
  | .obj .nil, f + 1, rest, hf, hn => rfl
  | .obj (.cons k v tl), f + 1, rest, hf, hn => by
    have h : dumpV (.obj (.cons k v tl)) ++ rest =
        '{' :: (dumpFields (.cons k v tl) ++ ('}' :: rest)) := by
      show ('{' :: (dumpFields (.cons k v tl) ++ ['}'])) ++ rest = _
      simp [List.append_assoc]
    rw [h]
    show (if (skipWs (dumpFields (.cons k v tl) ++ ('}' :: rest))).head? = some '}' then
        some (Json.obj JsonObj.nil, (skipWs (dumpFields (.cons k v tl) ++ ('}' :: rest))).tail)
      else (parseFields f (dumpFields (.cons k v tl) ++ ('}' :: rest))).map
        (fun (p : JsonObj × List Char) => (Json.obj p.1, p.2))) = _
    have hhead : (skipWs (dumpFields (.cons k v tl) ++ ('}' :: rest))).head? = some '"' := by
      rw [show dumpFields (.cons k v tl) =
        dumpStr k ++ ':' :: ' ' :: (dumpV v ++ dumpFieldsTail tl) from rfl]
      rfl
    rw [if_neg (by rw [hhead]; simp)]
    rw [parse_dumpFields k v tl f rest (by
      have h1 : needV (.obj (.cons k v tl)) = 1 + needO (.cons k v tl) := rfl
      omega)]
    rfl

/-- Parsing the dumped elements of a nonempty array (with the closing `]`)
recovers the elements. -/
theorem parse_dumpElems : ∀ (v : Json) (tl : JsonArr) (fuel : Nat) (rest : List Char),
    needA (.cons v tl) ≤ fuel →
    parseElems fuel (dumpElems (.cons v tl) ++ (']' :: rest)) =
      some (JsonArr.cons v tl, rest)
  | v, tl, 0, rest, hf => absurd hf (by simp [needA])
  | v, tl, f + 1, rest, hf => by
    have hv : needV v ≤ f := by
      have : needA (.cons v tl) = 1 + needV v + needA tl := rfl
      omega
    have hin : dumpElems (.cons v tl) ++ (']' :: rest) =
        dumpV v ++ (dumpElemsTail tl ++ (']' :: rest)) := by
      show (dumpV v ++ dumpElemsTail tl) ++ (']' :: rest) = _
      rw [List.append_assoc]
    have hnum : numSafe (dumpElemsTail tl ++ (']' :: rest)) = true := by
      cases tl <;> rfl
    rw [hin]
    show (match parseVal f (dumpV v ++ (dumpElemsTail tl ++ (']' :: rest))) with
      | none => none
      | some (w, r) =>
        if (skipWs r).head? = some ',' then
          (parseElems f (skipWs r).tail).map
            (fun (p : JsonArr × List Char) => (JsonArr.cons w p.1, p.2))
        else if (skipWs r).head? = some ']' then
          some (JsonArr.cons w JsonArr.nil, (skipWs r).tail)
        else none) = _
    rw [parse_dumpV v f (dumpElemsTail tl ++ (']' :: rest)) hv hnum]
    cases tl with
    | nil => rfl
    | cons v' tl' =>
      show (parseElems f (' ' :: ((dumpV v' ++ dumpElemsTail tl') ++ (']' :: rest)))).map
        (fun (p : JsonArr × List Char) => (JsonArr.cons v p.1, p.2)) = _
      rw [parseElems_ws ' ' (by decide) f _]
      rw [show (dumpV v' ++ dumpElemsTail tl') ++ (']' :: rest) =
        dumpElems (JsonArr.cons v' tl') ++ (']' :: rest) from rfl]
      rw [parse_dumpElems v' tl' f rest (by
        have h1 : needA (.cons v (JsonArr.cons v' tl')) =
          1 + needV v + needA (JsonArr.cons v' tl') := rfl
        omega)]
      rfl

/-- Parsing the dumped entries of a nonempty object (with the closing `}`)
recovers the entries. -/
theorem parse_dumpFields : ∀ (k : String) (v : Json) (tl : JsonObj) (fuel : Nat)
    (rest : List Char),
    needO (.cons k v tl) ≤ fuel →
    parseFields fuel (dumpFields (.cons k v tl) ++ ('}' :: rest)) =
      some (JsonObj.cons k v tl, rest)
  | k, v, tl, 0, rest, hf => absurd hf (by simp [needO])
  | k, v, tl, f + 1, rest, hf => by
    have hv : needV v ≤ f := by
      have : needO (.cons k v tl) = 1 + needV v + needO tl := rfl
      omega
    have hin : dumpFields (.cons k v tl) ++ ('}' :: rest) =
        '"' :: (escList k.data ++ ('"' :: (':' :: ' ' ::
          (dumpV v ++ (dumpFieldsTail tl ++ ('}' :: rest)))))) := by
      show (dumpStr k ++ ':' :: ' ' :: (dumpV v ++ dumpFieldsTail tl)) ++ ('}' :: rest) = _
      show (('"' :: (escList k.data ++ ['"'])) ++
        ':' :: ' ' :: (dumpV v ++ dumpFieldsTail tl)) ++ ('}' :: rest) = _
      simp [List.append_assoc]
    rw [hin]
    show (match parseStringBody (escList k.data ++ ('"' :: (':' :: ' ' ::
        (dumpV v ++ (dumpFieldsTail tl ++ ('}' :: rest)))))) with
      | none => none
      | some (kk, r1) =>
        match skipWs r1 with
        | ':' :: r2 =>
          match parseVal f r2 with
          | none => none
          | some (w, r3) =>
            if (skipWs r3).head? = some ',' then
              (parseFields f (skipWs r3).tail).map
                (fun (p : JsonObj × List Char) => (JsonObj.cons ⟨kk⟩ w p.1, p.2))
            else if (skipWs r3).head? = some '}' then
              some (JsonObj.cons ⟨kk⟩ w JsonObj.nil, (skipWs r3).tail)
            else none
        | _ => none) = _
    rw [parseStringBody_esc k.data]
    show (match parseVal f (' ' :: (dumpV v ++ (dumpFieldsTail tl ++ ('}' :: rest)))) with
      | none => none
      | some (w, r3) =>
        if (skipWs r3).head? = some ',' then
          (parseFields f (skipWs r3).tail).map
            (fun (p : JsonObj × List Char) => (JsonObj.cons ⟨k.data⟩ w p.1, p.2))
        else if (skipWs r3).head? = some '}' then
          some (JsonObj.cons ⟨k.data⟩ w JsonObj.nil, (skipWs r3).tail)
        else none) = _
    have hnum : numSafe (dumpFieldsTail tl ++ ('}' :: rest)) = true := by
      cases tl <;> rfl
    rw [parseVal_ws ' ' (by decide) f _,
      parse_dumpV v f (dumpFieldsTail tl ++ ('}' :: rest)) hv hnum]
    cases tl with
    | nil => rfl
    | cons k' v' tl' =>
      show (parseFields f (' ' :: ((dumpStr k' ++ ':' :: ' ' ::
          (dumpV v' ++ dumpFieldsTail tl')) ++ ('}' :: rest)))).map
        (fun (p : JsonObj × List Char) => (JsonObj.cons ⟨k.data⟩ v p.1, p.2)) = _
      rw [parseFields_ws ' ' (by decide) f _]
      rw [show (dumpStr k' ++ ':' :: ' ' :: (dumpV v' ++ dumpFieldsTail tl')) ++ ('}' :: rest) =
        dumpFields (JsonObj.cons k' v' tl') ++ ('}' :: rest) from rfl]
      rw [parse_dumpFields k' v' tl' f rest (by
        have h1 : needO (.cons k v (JsonObj.cons k' v' tl')) =
          1 + needV v + needO (JsonObj.cons k' v' tl') := rfl
        omega)]
      rfl
end

mutual
/-- The parser fuel needed for a value is at most its dump's length. -/
theorem needV_le : ∀ (v : Json), needV v ≤ (dumpV v).length
  | .null => by simp [needV, dumpV]
  | .bool true => by simp [needV, dumpV]
  | .bool false => by simp [needV, dumpV]
  | .num i => by
    show 1 ≤ (dumpInt i).length
    unfold dumpInt
    split
    · simp
    · exact List.length_pos.mpr (dumpNat_ne_nil _)
  | .str s => by simp [needV, dumpV, dumpStr]
  | .arr a => by
    have h := needA_le1 a
    have hlen : (dumpV (.arr a)).length = (dumpElems a).length + 2 := by
      show ('[' :: (dumpElems a ++ [']'])).length = _
      simp
    have hn : needV (.arr a) = 1 + needA a := rfl
    omega
  | .obj o => by
    have h := needO_le1 o
    have hlen : (dumpV (.obj o)).length = (dumpFields o).length + 2 := by
      show ('{' :: (dumpFields o ++ ['}'])).length = _
      simp
    have hn : needV (.obj o) = 1 + needO o := rfl
    omega

/-- Fuel bound for element lists against `dumpElems`. -/
theorem needA_le1 : ∀ (a : JsonArr), needA a ≤ (dumpElems a).length + 1
  | .nil => by simp [needA]
  | .cons v tl => by
    have h1 := needV_le v
    have h2 := needATail_le tl
    have hn : needA (.cons v tl) = 1 + needV v + needA tl := rfl
    have hlen : (dumpElems (.cons v tl)).length =
        (dumpV v).length + (dumpElemsTail tl).length := by
      show (dumpV v ++ dumpElemsTail tl).length = _
      simp
    omega

/-- Fuel bound for element lists against `dumpElemsTail`. -/
theorem needATail_le : ∀ (a : JsonArr), needA a ≤ (dumpElemsTail a).length
  | .nil => by simp [needA, dumpElemsTail]
  | .cons v tl => by
    have h1 := needV_le v
    have h2 := needATail_le tl
    have hn : needA (.cons v tl) = 1 + needV v + needA tl := rfl
    have hlen : (dumpElemsTail (.cons v tl)).length =
        2 + (dumpV v).length + (dumpElemsTail tl).length := by
      show (',' :: ' ' :: (dumpV v ++ dumpElemsTail tl)).length = _
      simp
      omega
    omega

/-- Fuel bound for entry lists against `dumpFields`. -/
theorem needO_le1 : ∀ (o : JsonObj), needO o ≤ (dumpFields o).length + 1
  | .nil => by simp [needO]
  | .cons k v tl => by
    have h1 := needV_le v
    have h2 := needOTail_le tl
    have hn : needO (.cons k v tl) = 1 + needV v + needO tl := rfl
    have hlen : (dumpFields (.cons k v tl)).length =
        (dumpStr k).length + 2 + (dumpV v).length + (dumpFieldsTail tl).length := by
      show (dumpStr k ++ ':' :: ' ' :: (dumpV v ++ dumpFieldsTail tl)).length = _
      simp
      omega
    have hk : 1 ≤ (dumpStr k).length := by
      show 1 ≤ ('"' :: (escList k.data ++ ['"'])).length
      simp
    omega

/-- Fuel bound for entry lists against `dumpFieldsTail`. -/
theorem needOTail_le : ∀ (o : JsonObj), needO o ≤ (dumpFieldsTail o).length
  | .nil => by simp [needO, dumpFieldsTail]
  | .cons k v tl => by
    have h1 := needV_le v
    have h2 := needOTail_le tl
    have hn : needO (.cons k v tl) = 1 + needV v + needO tl := rfl
    have hlen : (dumpFieldsTail (.cons k v tl)).length =
        2 + (dumpStr k).length + 2 + (dumpV v).length + (dumpFieldsTail tl).length := by
      show (',' :: ' ' :: (dumpStr k ++ ':' :: ' ' ::
        (dumpV v ++ dumpFieldsTail tl))).length = _
      simp
      omega
    omega
end

/-- The JSON round trip on the modelled fragment:
`json.loads(json.dumps(v)) == v`. -/
theorem loads_dumps (v : Json) : loads (dumps v) = some v := by
  show (match parseVal ((dumpV v).length + 1) (dumpV v) with
    | some (w, rest) => if skipWs rest = [] then some w else none
    | none => none) = some v
  have hp := parse_dumpV v ((dumpV v).length + 1) []
    (le_trans (needV_le v) (by omega)) rfl
  rw [List.append_nil] at hp
  rw [hp]
  rfl

/-! ## Canonical messages and the ClaudeGateway translation layer -/

/-- OpenAI-style tool call, the canonical representation used across the
adapters (`{"id", "type", "function": {"name", "arguments"}}` flattened;
`arguments` is the JSON-encoded string). -/
structure ToolCall where
  id : String
  type : String
  name : String
  arguments : String
deriving Repr, DecidableEq

/-- Canonical chat message (the OpenAI wire shape the adapters consume). -/
structure PyMessage where
  role : String
  content : Option String
  tool_calls : List ToolCall
  tool_call_id : Option String
deriving Repr, DecidableEq

/-- Python truthiness of `message.get("content")`: `None` and `""` are
falsy. -/
def truthy : Option String → Bool
  | none => false
  | some s => decide (s ≠ "")

/-- A Claude content block (the gateway wire format). -/
inductive ClaudeBlock where
  | text (t : String)
  | toolUse (id : String) (name : String) (input : Json)
  | toolResult (tool_use_id : String) (content : String)
deriving Repr, DecidableEq

/-- One tool call inside
`ClaudeGatewayModel._handle_assistant_message_with_tools`: only
`"type": "function"` calls are kept; the JSON-string arguments are parsed
with `json.loads`, falling back to `{}` on a decode error. -/
def toolCallToBlock (tc : ToolCall) : Option ClaudeBlock :=
  if tc.type = "function" then
    some (ClaudeBlock.toolUse tc.id tc.name
      (match loads tc.arguments with
       | some v => v
       | none => Json.obj .nil))
  else none

/-- `ClaudeGatewayModel._handle_assistant_message_with_tools`: a text block
for truthy content, then one `tool_use` block per function tool call. -/
def handleAssistantMessageWithTools (m : PyMessage) : List ClaudeBlock :=
  (if truthy m.content then [ClaudeBlock.text (m.content.getD "")] else []) ++
    m.tool_calls.filterMap toolCallToBlock

mutual
/-- Python `repr` on the modelled JSON fragment (used by `str(..)` in
`_create_openai_style_response` for non-dict tool inputs). -/
def pyRepr : Json → String
  | .null => "None"
  | .bool true => "True"
  | .bool false => "False"
  | .num i => ⟨dumpInt i⟩
  | .str s => "'" ++ s ++ "'"
  | .arr a => "[" ++ pyReprElems a ++ "]"
  | .obj o => "\x7b" ++ pyReprFields o ++ "\x7d"

/-- Elements of a Python list repr. -/
def pyReprElems : JsonArr → String
  | .nil => ""
  | .cons v tl => pyRepr v ++ pyReprElemsTail tl

/-- `", "` before each further element. -/
def pyReprElemsTail : JsonArr → String
  | .nil => ""
  | .cons v tl => ", " ++ (pyRepr v ++ pyReprElemsTail tl)

/-- Entries of a Python dict repr. -/
def pyReprFields : JsonObj → String
  | .nil => ""
  | .cons k v tl => "'" ++ k ++ "': " ++ (pyRepr v ++ pyReprFieldsTail tl)

/-- `", "` before each further entry. -/
def pyReprFieldsTail : JsonObj → String
  | .nil => ""
  | .cons k v tl => ", " ++ ("'" ++ k ++ "': " ++ (pyRepr v ++ pyReprFieldsTail tl))
end

/-- Python `str()` of a parsed JSON value. -/
def pyStr : Json → String
  | .str s => s
  | v => pyRepr v

/-- One reply block inside `ClaudeGatewayModel._create_openai_style_response`:
a `tool_use` block becomes an OpenAI-style tool call whose arguments are
`json.dumps(input)` when the input is a dict and `str(input)` otherwise. -/
def blockToCall : ClaudeBlock → Option ToolCall
  | ClaudeBlock.toolUse i nm input =>
    some { id := i, type := "function", name := nm,
           arguments :=
             match input with
             | Json.obj _ => dumps input
             | _ => pyStr input }
  | _ => none

/-- `ClaudeGatewayModel._create_openai_style_response`: concatenate the text
blocks and collect the tool calls; empty results become `None`. -/
def createOpenAIStyleResponse (blocks : List ClaudeBlock) :
    Option String × Option (List ToolCall) :=
  let text := blocks.foldl
    (fun acc b => match b with
      | ClaudeBlock.text t => acc ++ t
      | _ => acc) ""
  let calls := blocks.foldl
    (fun acc b => match blockToCall b with
      | some c => acc ++ [c]
      | none => acc) ([] : List ToolCall)
  (if text = "" then none else some text,
   if calls = [] then none else some calls)

/-- The call-collecting fold of `_create_openai_style_response` is a
`filterMap`. -/
theorem foldl_calls_eq (blocks : List ClaudeBlock) :
    ∀ acc : List ToolCall,
      blocks.foldl
        (fun acc b => match blockToCall b with
          | some c => acc ++ [c]
          | none => acc) acc = acc ++ blocks.filterMap blockToCall := by
  induction blocks with
  | nil => intro acc; simp
  | cons b bs ih =>
    intro acc
    cases hb : blockToCall b with
    | none => simp [List.foldl_cons, hb, ih, List.filterMap_cons]
    | some c => simp [List.foldl_cons, hb, ih (acc ++ [c]), List.filterMap_cons]

/-- Translating well-formed function tool calls out and back is the
identity. -/
theorem filterMap_round_trip (tcs : List ToolCall)
    (h : ∀ tc ∈ tcs, tc.type = "function" ∧
      ∃ kvs, tc.arguments = dumps (Json.obj kvs)) :
    (tcs.filterMap toolCallToBlock).filterMap blockToCall = tcs := by
  induction tcs with
  | nil => rfl
  | cons tc rest ih =>
    obtain ⟨h1, kvs, h2⟩ := h tc (List.mem_cons_self tc rest)
    have hrest := ih (fun x hx => h x (List.mem_cons_of_mem tc hx))
    have hb : toolCallToBlock tc =
        some (ClaudeBlock.toolUse tc.id tc.name (Json.obj kvs)) := by
      unfold toolCallToBlock
      rw [if_pos h1, h2, loads_dumps (Json.obj kvs)]
    have hc : blockToCall (ClaudeBlock.toolUse tc.id tc.name (Json.obj kvs)) =
        some (ToolCall.mk tc.id "function" tc.name (dumps (Json.obj kvs))) := rfl
    rw [List.filterMap_cons, hb]
    rw [List.filterMap_cons, hc, hrest]
    have heta : ToolCall.mk tc.id "function" tc.name (dumps (Json.obj kvs)) = tc := by
      cases tc with
      | mk i ty nm ar =>
        simp only at h1 h2 ⊢
        rw [h1, h2]
    rw [heta]

/-- C6: for an assistant message whose tool calls are well-formed function
calls (arguments in canonical `json.dumps` form, as the adapters themselves
produce), translating to the Claude wire format and translating the reply
blocks back is the identity on the whole tool-call list: id, function name
and argument values (indeed the exact argument strings) are preserved. -/
theorem c6_tool_call_round_trip :
    ∀ (m : PyMessage),
      m.tool_calls ≠ [] →
      (∀ tc ∈ m.tool_calls, tc.type = "function" ∧
        ∃ kvs, tc.arguments = dumps (Json.obj kvs)) →
      (createOpenAIStyleResponse (handleAssistantMessageWithTools m)).2 =
        some m.tool_calls := by
  intro m hne h
  have hcalls : (handleAssistantMessageWithTools m).foldl
      (fun acc b => match blockToCall b with
        | some c => acc ++ [c]
        | none => acc) ([] : List ToolCall) = m.tool_calls := by
    rw [foldl_calls_eq _ []]
    unfold handleAssistantMessageWithTools
    rw [List.filterMap_append, filterMap_round_trip m.tool_calls h]
    by_cases ht : truthy m.content
    · rw [if_pos ht]
      rfl
    · rw [if_neg ht]
      rfl
  have h2 : (createOpenAIStyleResponse (handleAssistantMessageWithTools m)).2 =
      (if (handleAssistantMessageWithTools m).foldl
        (fun acc b => match blockToCall b with
          | some c => acc ++ [c]
          | none => acc) ([] : List ToolCall) = [] then none
       else some ((handleAssistantMessageWithTools m).foldl
        (fun acc b => match blockToCall b with
          | some c => acc ++ [c]
          | none => acc) ([] : List ToolCall))) := rfl
  rw [h2, hcalls, if_neg hne]

/-- C6 witness: a concrete weather tool call survives the outbound and
inbound translation byte for byte. -/
theorem c6_witness :
    (createOpenAIStyleResponse (handleAssistantMessageWithTools
      (PyMessage.mk "assistant" (some "Checking the weather.")
        [ToolCall.mk "call_1" "function" "get_weather" "\x7b\"city\": \"Paris\"\x7d"] none))).2 =
      some [ToolCall.mk "call_1" "function" "get_weather" "\x7b\"city\": \"Paris\"\x7d"] := by
  refine c6_tool_call_round_trip _ (by simp) ?_
  intro tc htc
  rcases List.mem_singleton.mp htc with rfl
  exact ⟨rfl, JsonObj.cons "city" (Json.str "Paris") JsonObj.nil, rfl⟩

/-! ## Claim C7: structured-output parse failure -/

/-- `LiteLLMModel._try_model`, structured-output branch: `json.loads` the
reply text and validate it against the pydantic schema; any failure is
caught (`except Exception`) and `None` is returned with the raw text only
written to the log. -/
def tryModelParse (validate : Json → Option α) (content : String) : Option α :=
  match loads content with
  | some v => validate v
  | none => none

/-- C7 (amended): when the raw reply text is not valid JSON, the value
handed back is `None` and no error is raised (the adapter's catch-all
swallows it); but the raw reply text is *not* preserved for the caller —
it is only logged, and the result is observationally independent of it. -/
theorem c7_schema_parse_failure :
    (∀ (α : Type) (validate : Json → Option α) (content : String),
        loads content = none → tryModelParse validate content = none) ∧
    (∀ (α : Type) (validate : Json → Option α) (c₁ c₂ : String),
        loads c₁ = none → loads c₂ = none →
        tryModelParse validate c₁ = tryModelParse validate c₂) := by
  constructor
  · intro α validate content h
    unfold tryModelParse
    rw [h]
  · intro α validate c₁ c₂ h1 h2
    unfold tryModelParse
    rw [h1, h2]

/-- C7 counterexample: two different non-JSON reply texts produce the very
same result, the bare `None` — so the raw reply text is not preserved for
the caller, contrary to the claim. -/
theorem c7_counterexample :
    tryModelParse (fun v => some v) "I cannot answer that." = none ∧
    tryModelParse (fun v => some v) "Sure, here is the JSON." = none ∧
    "I cannot answer that." ≠ "Sure, here is the JSON." := by
  exact ⟨rfl, rfl, by decide⟩

/-- C7 witness: the amended theorem applied to a concrete invalid reply. -/
theorem c7_witness :
    tryModelParse (fun v => some v) "not valid json" = none := by
  exact c7_schema_parse_failure.1 Json (fun v => some v) "not valid json" rfl

/-! ## Claim C8: mutation of caller-supplied inputs -/

/-- An OpenAI-format tool function definition as a dictionary; `title` is
the meta key `_convert_openai_tools_to_claude` deletes. -/
structure OpenAIFunctionDef where
  name : String
  description : Option String
  title : Option String
  parameters : Json
deriving Repr, DecidableEq

/-- An OpenAI-format tool entry (`{"type": "function", "function": ...}`). -/
structure OpenAITool where
  type : String
  function : Option OpenAIFunctionDef
deriving Repr, DecidableEq

/-- A Claude-format tool entry. -/
structure ClaudeTool where
  name : String
  description : String
  input_schema : Json
deriving Repr, DecidableEq

/-- The in-place effect of `del func_def["title"]` on one caller tool. -/
def stripTitle (t : OpenAITool) : OpenAITool :=
  if t.type = "function" then
    match t.function with
    | some f => { t with function := some { f with title := none } }
    | none => t
  else t

/-- `ClaudeGatewayModel._convert_openai_tools_to_claude`.  The Python loop
executes `del func_def["title"]` on the *caller's* function dict before
building the Claude tool, so the function is modelled as returning both the
Claude tools and the caller's list as it stands after the call. -/
def convertOpenAIToolsToClaude : List OpenAITool → List ClaudeTool × List OpenAITool
  | [] => ([], [])
  | t :: ts =>
    let rest := convertOpenAIToolsToClaude ts
    if t.type = "function" then
      match t.function with
      | some f =>
        ({ name := f.name, description := f.description.getD "",
           input_schema := f.parameters } :: rest.1,
         { t with function := some { f with title := none } } :: rest.2)
      | none => (rest.1, t :: rest.2)
    else (rest.1, t :: rest.2)

/-- The schema instruction string `LiteLLMModel._try_model` builds. -/
def schemaInstruction (schemaStr : String) : String :=
  "\n\nPlease respond with valid JSON matching this schema: " ++ schemaStr

/-- The in-place mutation of the caller's message list performed by
`LiteLLMModel._try_model` when a response schema is requested: the
instruction is appended to an existing leading system message's content
(`messages[0]["content"] += schema_instruction`), otherwise a new system
message is inserted at index 0 (`messages.insert(0, ...)`).  Returns the
caller's list as it stands after the call. -/
def tryModelMessages (messages : List PyMessage) (instr : Option String) :
    List PyMessage :=
  match instr with
  | none => messages
  | some ins =>
    match messages with
    | m :: rest =>
      if m.role = "system" then
        { m with content := some (m.content.getD "" ++ ins) } :: rest
      else
        { role := "system", content := some ("You are a helpful assistant." ++ ins),
          tool_calls := [], tool_call_id := none } :: m :: rest
    | [] =>
      [{ role := "system", content := some ("You are a helpful assistant." ++ ins),
         tool_calls := [], tool_call_id := none }]

/-- One step of `_convert_openai_tools_to_claude` on the caller's list: the
head comes back with its `title` stripped. -/
theorem convertClaude_snd_cons (t : OpenAITool) (ts : List OpenAITool) :
    (convertOpenAIToolsToClaude (t :: ts)).2 =
      stripTitle t :: (convertOpenAIToolsToClaude ts).2 := by
  show ((if t.type = "function" then
      match t.function with
      | some f =>
        (ClaudeTool.mk f.name (f.description.getD "") f.parameters ::
            (convertOpenAIToolsToClaude ts).1,
         { t with function := some { f with title := none } } ::
            (convertOpenAIToolsToClaude ts).2)
      | none => ((convertOpenAIToolsToClaude ts).1, t :: (convertOpenAIToolsToClaude ts).2)
    else ((convertOpenAIToolsToClaude ts).1, t :: (convertOpenAIToolsToClaude ts).2)) :
      List ClaudeTool × List OpenAITool).2 = stripTitle t :: (convertOpenAIToolsToClaude ts).2
  unfold stripTitle
  by_cases hty : t.type = "function"
  · rw [if_pos hty, if_pos hty]
    cases hfn : t.function with
    | none => rfl
    | some f => rfl
  · rw [if_neg hty, if_neg hty]

/-- A tool whose function definition has no `title` is left unchanged. -/
theorem stripTitle_of_no_title (t : OpenAITool)
    (h : t.function.bind OpenAIFunctionDef.title = none) : stripTitle t = t := by
  unfold stripTitle
  by_cases hty : t.type = "function"
  · rw [if_pos hty]
    cases hfn : t.function with
    | none => rfl
    | some f =>
      rw [hfn] at h
      have hf : f.title = none := h
      cases t with
      | mk ty fn =>
        simp only at hfn
        rw [hfn]
        cases f with
        | mk nm ds ttl pm =>
          simp only at hf
          rw [hf]
  · rw [if_neg hty]

/-- C8 (amended): the invocation layer mutates its caller-supplied inputs in
exactly two places — `_convert_openai_tools_to_claude` deletes the `title`
key from the caller's tool function definitions in place, and, when a
response schema is requested, `_try_model` appends the schema instruction
to the caller's first system message or inserts a new system message at the
head of the caller's list.  Apart from these the inputs come back
unchanged: tools without a `title` are untouched, and without a schema
request the message list is untouched. -/
theorem c8_caller_input_mutation :
    (∀ tools : List OpenAITool,
      (convertOpenAIToolsToClaude tools).2 = tools.map stripTitle) ∧
    (∀ tools : List OpenAITool,
      (∀ t ∈ tools, (t.function.bind OpenAIFunctionDef.title) = none) →
      (convertOpenAIToolsToClaude tools).2 = tools) ∧
    (∀ messages : List PyMessage, tryModelMessages messages none = messages) ∧
    (∀ (m : PyMessage) (rest : List PyMessage) (ins : String), m.role = "system" →
      tryModelMessages (m :: rest) (some ins) =
        { m with content := some (m.content.getD "" ++ ins) } :: rest) ∧
    (∀ (m : PyMessage) (rest : List PyMessage) (ins : String), ¬(m.role = "system") →
      tryModelMessages (m :: rest) (some ins) =
        { role := "system", content := some ("You are a helpful assistant." ++ ins),
          tool_calls := [], tool_call_id := none } :: m :: rest) := by
  refine ⟨?_, ?_, fun messages => rfl, ?_, ?_⟩
  · intro tools
    induction tools with
    | nil => rfl
    | cons t ts ih => rw [convertClaude_snd_cons, ih, List.map_cons]
  · intro tools h
    induction tools with
    | nil => rfl
    | cons t ts ih =>
      have ht := h t (List.mem_cons_self t ts)
      have hrest := ih (fun x hx => h x (List.mem_cons_of_mem t hx))
      rw [convertClaude_snd_cons, hrest, stripTitle_of_no_title t ht]
  · intro m rest ins hrole
    show (if m.role = "system" then _ else _) = _
    rw [if_pos hrole]
  · intro m rest ins hrole
    show (if m.role = "system" then _ else _) = _
    rw [if_neg hrole]

/-- C8 counterexample: the claim says inputs are identical before and after
the call.  A caller tool whose function definition carries a `title` comes
back without it, and a caller message list with a schema request comes back
with its first message rewritten. -/
theorem c8_counterexample :
    (convertOpenAIToolsToClaude
      [OpenAITool.mk "function"
        (some (OpenAIFunctionDef.mk "get_weather" (some "d") (some "GetWeather") Json.null))]).2 ≠
      [OpenAITool.mk "function"
        (some (OpenAIFunctionDef.mk "get_weather" (some "d") (some "GetWeather") Json.null))] ∧
    tryModelMessages [PyMessage.mk "system" (some "You are helpful.") [] none]
        (some (schemaInstruction "{}")) ≠
      [PyMessage.mk "system" (some "You are helpful.") [] none] := by
  exact ⟨by decide, by decide⟩

/-- C8 witness: the amended theorem applied to a concrete titled tool and a
concrete system message. -/
theorem c8_witness :
    (convertOpenAIToolsToClaude
      [OpenAITool.mk "function"
        (some (OpenAIFunctionDef.mk "get_weather" (some "d") (some "GetWeather") Json.null))]).2 =
      [OpenAITool.mk "function"
        (some (OpenAIFunctionDef.mk "get_weather" (some "d") none Json.null))] ∧
    tryModelMessages [PyMessage.mk "system" (some "Be nice.") [] none]
        (some (schemaInstruction "{}")) =
      [PyMessage.mk "system"
        (some ("Be nice." ++ schemaInstruction "{}")) [] none] := by
  constructor
  · exact (c8_caller_input_mutation.1
      [OpenAITool.mk "function"
        (some (OpenAIFunctionDef.mk "get_weather" (some "d") (some "GetWeather") Json.null))]).trans
      rfl
  · exact (c8_caller_input_mutation.2.2.2.1
      (PyMessage.mk "system" (some "Be nice.") [] none) [] (schemaInstruction "{}") rfl).trans
      rfl

/-! ## Claim C10: Gemini message collapsing -/

/-- The message-formatting loop of `GeminiModel._generate` (gemini.py
100-141): walk the messages once, appending truthy system contents to
`system_messages` and truthy non-system contents to `formatted_messages`;
the provider then receives `system_instruction =
"\n\n".join(system_messages)` and a single text `contents =
"\n\n".join(formatted_messages) if formatted_messages else ""`. -/
def geminiCollapse (messages : List PyMessage) : String × String :=
  let acc := messages.foldl
    (fun (acc : List String × List String) m =>
      if m.role = "system" then
        if truthy m.content then (acc.1 ++ [m.content.getD ""], acc.2) else acc
      else
        if truthy m.content then (acc.1, acc.2 ++ [m.content.getD ""]) else acc)
    ([], [])
  (String.intercalate "\n\n" acc.1,
   if acc.2 = [] then "" else String.intercalate "\n\n" acc.2)

/-- The collapse fold, started from arbitrary accumulators, filters and
maps. -/
theorem geminiCollapse_fold (messages : List PyMessage) :
    ∀ accS accU : List String,
      messages.foldl
        (fun (acc : List String × List String) m =>
          if m.role = "system" then
            if truthy m.content then (acc.1 ++ [m.content.getD ""], acc.2) else acc
          else
            if truthy m.content then (acc.1, acc.2 ++ [m.content.getD ""]) else acc)
        (accS, accU) =
      (accS ++ (messages.filter
          (fun m => if m.role = "system" then truthy m.content else false)).map
          (fun m => m.content.getD ""),
       accU ++ (messages.filter
          (fun m => if m.role = "system" then false else truthy m.content)).map
          (fun m => m.content.getD "")) := by
  induction messages with
  | nil => intro accS accU; simp
  | cons m ms ih =>
    intro accS accU
    rw [List.foldl_cons]
    by_cases hrole : m.role = "system"
    · by_cases hc : truthy m.content
      · rw [if_pos hrole, if_pos hc, ih (accS ++ [m.content.getD ""]) accU]
        simp [List.filter_cons, hrole, hc]
      · rw [if_pos hrole, if_neg hc, ih accS accU]
        have hc' : truthy m.content = false := by
          cases h : truthy m.content
          · rfl
          · exact absurd h hc
        simp [List.filter_cons, hrole, hc']
    · by_cases hc : truthy m.content
      · rw [if_neg hrole, if_pos hc, ih accS (accU ++ [m.content.getD ""])]
        simp [List.filter_cons, hrole, hc]
      · rw [if_neg hrole, if_neg hc, ih accS accU]
        have hc' : truthy m.content = false := by
          cases h : truthy m.content
          · rfl
          · exact absurd h hc
        simp [List.filter_cons, hrole, hc']

/-- The collapse in closed form: the system instruction is the
`"\n\n"`-join of the truthy system contents, the provider text the
`"\n\n"`-join of the truthy non-system contents, in message order. -/
theorem geminiCollapse_eq (messages : List PyMessage) :
    geminiCollapse messages =
      (String.intercalate "\n\n" ((messages.filter
          (fun m => if m.role = "system" then truthy m.content else false)).map
          (fun m => m.content.getD "")),
       String.intercalate "\n\n" ((messages.filter
          (fun m => if m.role = "system" then false else truthy m.content)).map
          (fun m => m.content.getD ""))) := by
  unfold geminiCollapse
  rw [geminiCollapse_fold messages [] []]
  simp only [List.nil_append]
  by_cases hemp : ((messages.filter
      (fun m => if m.role = "system" then false else truthy m.content)).map
      (fun m => m.content.getD "")) = []
  · rw [hemp]
    rfl
  · rw [if_neg hemp]

/-- C10: the Gemini adapter collapses the conversation before sending.  The
provider receives a single text equal to the `"\n\n"`-join, in order, of
the truthy contents of the non-system messages, and a system instruction
equal to the `"\n\n"`-join of the truthy system contents; the distinction
between the non-system roles, the `tool_calls` and `tool_call_id` fields,
and every message with empty or missing content are discarded — any
rewrite of the messages that preserves content and system-ness leaves the
transmitted payload unchanged. -/
theorem c10_gemini_collapse :
    (∀ messages : List PyMessage,
      geminiCollapse messages =
        (String.intercalate "\n\n" ((messages.filter
            (fun m => if m.role = "system" then truthy m.content else false)).map
            (fun m => m.content.getD "")),
         String.intercalate "\n\n" ((messages.filter
            (fun m => if m.role = "system" then false else truthy m.content)).map
            (fun m => m.content.getD "")))) ∧
    (∀ (messages : List PyMessage) (g : PyMessage → PyMessage),
      (∀ m, (g m).content = m.content ∧ ((g m).role = "system" ↔ m.role = "system")) →
      geminiCollapse (messages.map g) = geminiCollapse messages) := by
  refine ⟨geminiCollapse_eq, ?_⟩
  intro messages g hg
  rw [geminiCollapse_eq (messages.map g), geminiCollapse_eq messages]
  have hmain : ∀ p : PyMessage → Bool, (∀ m, p (g m) = p m) →
      ((messages.map g).filter p).map (fun m => m.content.getD "") =
        (messages.filter p).map (fun m => m.content.getD "") := by
    intro p hp
    rw [List.filter_map]
    have hfil : messages.filter (p ∘ g) = messages.filter p :=
      List.filter_congr (fun m _ => hp m)
    rw [hfil, List.map_map]
    refine List.map_congr_left ?_
    intro m _
    show (g m).content.getD "" = m.content.getD ""
    rw [(hg m).1]
  have hp1 : ∀ m, (if (g m).role = "system" then truthy (g m).content else false) =
      (if m.role = "system" then truthy m.content else false) := by
    intro m
    by_cases hr : m.role = "system"
    · rw [if_pos hr, if_pos ((hg m).2.mpr hr), (hg m).1]
    · rw [if_neg hr, if_neg (fun hgr => hr ((hg m).2.mp hgr))]
  have hp2 : ∀ m, (if (g m).role = "system" then false else truthy (g m).content) =
      (if m.role = "system" then false else truthy m.content) := by
    intro m
    by_cases hr : m.role = "system"
    · rw [if_pos hr, if_pos ((hg m).2.mpr hr)]
    · rw [if_neg hr, if_neg (fun hgr => hr ((hg m).2.mp hgr)), (hg m).1]
  rw [hmain (fun m => if m.role = "system" then truthy m.content else false) hp1,
    hmain (fun m => if m.role = "system" then false else truthy m.content) hp2]

/-- C10 witness: a conversation where roles among user/assistant/tool are
rewritten and tool fields dropped produces the identical Gemini payload;
concretely evaluated, the payload is the joined truthy contents. -/
theorem c10_witness :
    geminiCollapse ([PyMessage.mk "system" (some "Be nice.") [] none,
        PyMessage.mk "tool" (some "It is sunny.") [] (some "call_1"),
        PyMessage.mk "assistant" none [] none,
        PyMessage.mk "user" (some "Thanks!") [] none].map
      (fun m => PyMessage.mk (if m.role = "system" then "system" else "user")
        m.content [] none)) =
      geminiCollapse [PyMessage.mk "system" (some "Be nice.") [] none,
        PyMessage.mk "tool" (some "It is sunny.") [] (some "call_1"),
        PyMessage.mk "assistant" none [] none,
        PyMessage.mk "user" (some "Thanks!") [] none] ∧
    geminiCollapse [PyMessage.mk "system" (some "Be nice.") [] none,
        PyMessage.mk "tool" (some "It is sunny.") [] (some "call_1"),
        PyMessage.mk "assistant" none [] none,
        PyMessage.mk "user" (some "Thanks!") [] none] =
      ("Be nice.", "It is sunny.\n\nThanks!") := by
  constructor
  · refine c10_gemini_collapse.2 _
      (fun m => PyMessage.mk (if m.role = "system" then "system" else "user")
        m.content [] none) ?_
    intro m
    refine ⟨rfl, ?_⟩
    show (if m.role = "system" then "system" else "user") = "system" ↔ m.role = "system"
    by_cases hr : m.role = "system"
    · rw [if_pos hr]
      exact ⟨fun _ => hr, fun _ => rfl⟩
    · rw [if_neg hr]
      exact ⟨fun h => absurd h (by decide), fun h => absurd h hr⟩
  · exact (c10_gemini_collapse.1 _).trans (by decide)
